import Mathlib

/-!
Verification of the CCRN parser/converter and validation backend of
common-cloud-resource-names.

Strings are modelled as lists of characters (`Str`); the Go standard-library
string functions used by the source (strings.Split, SplitN, TrimSpace,
TrimPrefix, HasPrefix, HasSuffix, Replace with n = 1, Contains, ToLower) are
given faithful models over `Str`.  All separators used by the source are
ASCII, so the byte-level Go semantics and the character-level model agree.
Go maps are modelled as association lists with overwrite-on-insert; where a
claim depends on Go's unspecified map iteration order, the theorems quantify
over permutations of the association list.

Functions that can panic in Go (index out of range) return `Res.crashed`;
`error` returns are `Res.err` carrying the exact message the source builds.
-/

abbrev Str := List Char

/-- Convert a Lean string literal to the `Str` model. -/
def str (s : String) : Str := s.toList

/-- Model of Go strings.HasPrefix: true when the first argument is an initial
segment of the second. -/
def isPre : Str → Str → Bool
  | [], _ => true
  | _ :: _, [] => false
  | a :: as, b :: bs => a == b && isPre as bs

/-- Model of Go strings.HasSuffix. -/
def isSuf (p s : Str) : Bool := isPre p.reverse s.reverse

/-- Model of Go strings.TrimPrefix: drop the leading occurrence when present,
otherwise return the string unchanged. -/
def goTrimPre (s p : Str) : Str := if isPre p s then s.drop p.length else s

/-- Characters for which Go unicode.IsSpace is true (the full Unicode
White_Space list, which is what strings.TrimSpace strips). -/
def isWhite (c : Char) : Bool :=
  c == ' ' || c == '\t' || c == '\n' || c == '\u000b' || c == '\u000c' ||
  c == '\r' || c == '\u0085' || c == '\u00a0' || c == '\u1680' ||
  c == '\u2000' || c == '\u2001' || c == '\u2002' || c == '\u2003' ||
  c == '\u2004' || c == '\u2005' || c == '\u2006' || c == '\u2007' ||
  c == '\u2008' || c == '\u2009' || c == '\u200a' || c == '\u2028' ||
  c == '\u2029' || c == '\u202f' || c == '\u205f' || c == '\u3000'

/-- Model of Go strings.TrimSpace. -/
def goTrimSpace (s : Str) : Str :=
  ((s.dropWhile isWhite).reverse.dropWhile isWhite).reverse

/-- Model of Go strings.Split with a one-character separator: full split,
always returning at least one (possibly empty) piece. -/
def goSplit (sep : Char) : Str → List Str
  | [] => [[]]
  | c :: rest =>
    match goSplit sep rest with
    | [] => [[]]
    | h :: t => if c == sep then [] :: h :: t else (c :: h) :: t

/-- Break a string at the first occurrence of the separator, when there is
one. -/
def splitFirst (sep : Char) : Str → Option (Str × Str)
  | [] => none
  | c :: rest =>
    if c == sep then some ([], rest)
    else (splitFirst sep rest).map (fun p => (c :: p.1, p.2))

/-- Model of Go strings.SplitN with a one-character separator and n ≥ 0: at
most n pieces, the last piece being the unsplit remainder. -/
def goSplitN (sep : Char) (s : Str) : Nat → List Str
  | 0 => []
  | 1 => [s]
  | n + 2 =>
    match splitFirst sep s with
    | none => [s]
    | some (a, b) => a :: goSplitN sep b (n + 1)

/-- Model of Go strings.Replace(s, old, new, 1): replace the first occurrence
of old; when old is empty, Go inserts new at the start. -/
def goReplace1 (old new : Str) : Str → Str
  | [] => if old.isEmpty then new else []
  | c :: rest =>
    if old.isEmpty then new ++ c :: rest
    else if isPre old (c :: rest) then new ++ (c :: rest).drop old.length
    else c :: goReplace1 old new rest

/-- Helper for goContains: does sub occur starting at some position of s. -/
def containsAux (sub : Str) : Str → Bool
  | [] => sub.isEmpty
  | c :: rest => isPre sub (c :: rest) || containsAux sub rest

/-- Model of Go strings.Contains. -/
def goContains (s sub : Str) : Bool := containsAux sub s

/-- Model of Go strings.ToLower (ASCII range, which covers every key the
source builds). -/
def goToLower (s : Str) : Str := s.map Char.toLower

/-- Association-list model of Go map[string]string. -/
abbrev Fields := List (Str × Str)

/-- Map lookup. -/
def getF : Fields → Str → Option Str
  | [], _ => none
  | (k, v) :: t, q => if k == q then some v else getF t q

/-- Map assignment: overwrite the value when the key is present, append the
binding otherwise. -/
def mapSet (m : Fields) (k v : Str) : Fields :=
  if m.any (fun p => p.1 == k) then
    m.map (fun p => if p.1 == k then (k, v) else p)
  else m ++ [(k, v)]

/-- Outcome of a Go call: a value, an error with its message, or a runtime
panic (index out of range). -/
inductive Res (α : Type) where
  | ok (val : α)
  | err (msg : Str)
  | crashed
  deriving DecidableEq, Repr

/-- True exactly on `Res.ok`. -/
def Res.isOk : Res α → Bool
  | .ok _ => true
  | _ => false

/-- Quote stripping of parseCCRNFields: a trimmed value of length at least
two whose first and last bytes are double quotes loses exactly that pair. -/
def stripQuotes (value : Str) : Str :=
  if 2 ≤ value.length ∧ value.head? = some '"' ∧ value.getLast? = some '"' then
    (value.drop 1).dropLast
  else value

/-- Per-entry loop body of parseCCRNFields: trim the entry, skip empty
entries, split on the first '=', trim key and value, strip one wholly
wrapping pair of double quotes from the value. -/
def processEntries : List Str → Fields → Res Fields
  | [], fields => .ok fields
  | entry :: rest, fields =>
    let entry := goTrimSpace entry
    if entry.isEmpty then processEntries rest fields
    else
      match goSplitN '=' entry 2 with
      | [k0, v0] =>
        let key := goTrimSpace k0
        let value := stripQuotes (goTrimSpace v0)
        processEntries rest (mapSet fields key value)
      | _ => .err (str "invalid field format: " ++ entry ++ str " (must be key=value)")

/-- Model of parseCCRNFields: parse the field-list surface form into a field
map, requiring the literal leading "ccrn=" and a ccrn entry. -/
def parseCCRNFields (ccrn : Str) : Res Fields :=
  if ¬ isPre (str "ccrn=") ccrn then
    .err (str "invalid CCRN format: must start with 'ccrn='")
  else
    let fieldsPart := goTrimSpace ccrn
    let fieldEntries := goSplit ',' fieldsPart
    match processEntries fieldEntries [] with
    | .ok fields =>
      if getF fields (str "ccrn") = none then
        .err (str "missing required field: ccrn")
      else .ok fields
    | other => other

/-- Model of parseURNCCRNField: bootstrap extraction of the type key (the
first two slash-delimited body segments) from a URN. -/
def parseURNCCRNField (urn : Str) : Res Str :=
  let body := goTrimPre urn (str "urn:ccrn:")
  match goSplit '/' body with
  | p0 :: p1 :: _ :: _ => .ok (p0 ++ str "/" ++ p1)
  | _ =>
    .err (str "invalid URN format: must contain at least three segments after 'urn:ccrn:'")

/-- Segment-matching loop of parseURNFields over template-segment /
input-segment pairs. -/
def matchSegs : List (Str × Str) → Fields → Res Fields
  | [], fields => .ok fields
  | (t, p) :: rest, fields =>
    if isPre (str "<") t ∧ isSuf (str ">") t then
      matchSegs rest (mapSet fields ((t.drop 1).dropLast) p)
    else if t = str "<ccrn>" then
      matchSegs rest (mapSet fields (str "ccrn") p)
    else if t ≠ p then
      .err (str "URN segment '" ++ p ++ str "' does not match template '" ++ t ++ str "'")
    else matchSegs rest fields

/-- Model of parseURNFields: parse a URN against a template.  The source
splits the body with SplitN capped at the number of template segments, joins
the first two pieces into the type key, and then compares the rebuilt pieces
against the template segments; `parts[0] = ...` panics when the body yields
fewer than two pieces. -/
def parseURNFields (urn urnTemplate : Str) : Res Fields :=
  if ¬ isPre (str "urn:ccrn:") urn then
    .err (str "invalid URN format: must start with 'urn:ccrn:'")
  else if ¬ isPre (str "urn:ccrn:") urnTemplate then
    .err (str "invalid URN template: must start with 'urn:ccrn:'")
  else
    let body := goTrimPre urn (str "urn:ccrn:")
    let templateBody := goTrimPre urnTemplate (str "urn:ccrn:")
    let templateParts := goSplit '/' templateBody
    let tmpParts := goSplitN '/' body templateParts.length
    match tmpParts with
    | t0 :: t1 :: restParts =>
      let parts :=
        (t0 ++ str "/" ++ t1) ::
          restParts.map (fun s => if s.isEmpty then [] else s)
      if parts.length < templateParts.length then
        .err (str "URN and template do not match in segment count. Expected format "
          ++ urnTemplate ++ str " segments, got: " ++ urn)
      else
        match matchSegs (templateParts.zip parts) [] with
        | .ok fields =>
          if getF fields (str "ccrn") = none then
            .err (str "missing required field: ccrn")
          else .ok fields
        | other => other
    | _ => .crashed

/-- Structured parse result (ParsedResource). -/
structure ParsedResource where
  format : Str
  fields : Fields
  raw : Str
  urnTemplate : Str
  deriving DecidableEq, Repr

/-- Substitution fold of ParsedResource.URN: one first-occurrence replacement
of the token <key> per field, in the order the fields are iterated. -/
def renderFold (fields : Fields) (template : Str) : Str :=
  fields.foldl
    (fun tpl kv => goReplace1 (str "<" ++ kv.1 ++ str ">") kv.2 tpl) template

/-- Model of ParsedResource.URN: fall back to the stored template when the
argument is empty, return "" when neither is available, then substitute each
field once. -/
def ParsedResource.URN (p : ParsedResource) (template : Str) : Str :=
  let t : Option Str :=
    if template.isEmpty then
      if ¬ p.urnTemplate.isEmpty then some p.urnTemplate else none
    else some template
  match t with
  | none => []
  | some tpl => renderFold p.fields tpl

/-- Remove every binding of the given key (Go map delete). -/
def removeKey (m : Fields) (k : Str) : Fields := m.filter (fun p => p.1 != k)

/-- Template segment: a literal chunk or a <name> placeholder. -/
inductive Seg where
  | lit (s : Str)
  | hole (name : Str)
  deriving DecidableEq, Repr

/-- Structured template: a sequence of literal chunks and placeholders. -/
abbrev Tpl := List Seg

/-- Flatten a structured template to the string the source operates on: a
hole named n prints as the token <n>. -/
def flat : Tpl → Str
  | [] => []
  | .lit s :: r => s ++ flat r
  | .hole n :: r => '<' :: (n ++ '>' :: flat r)

/-- True when the string contains no angle bracket. -/
def brFree (s : Str) : Bool := s.all (fun c => c != '<' && c != '>')

/-- Well-formed structured template: every literal chunk and every hole name
is bracket-free. -/
def wfT (tp : Tpl) : Bool :=
  tp.all (fun sg => match sg with | .lit s => brFree s | .hole n => brFree n)

/-- Replace the first hole named k by the literal v (abstract counterpart of
one strings.Replace(tpl, "<k>", v, 1) step). -/
def substFirst (k v : Str) : Tpl → Tpl
  | [] => []
  | .lit s :: r => .lit s :: substFirst k v r
  | .hole n :: r => if n = k then .lit v :: r else .hole n :: substFirst k v r

/-- Modelled from the spec: each <name> placeholder whose name is a key of
the mapping is substituted with that field's value inserted literally, first
occurrence only per field (the key is consumed after its first hole), and a
placeholder with no corresponding field is left unsubstituted. -/
def substPerSpec : Fields → Tpl → Tpl
  | _, [] => []
  | l, .lit s :: r => .lit s :: substPerSpec l r
  | l, .hole n :: r =>
    match getF l n with
    | some v => .lit v :: substPerSpec (removeKey l n) r
    | none => .hole n :: substPerSpec l r

/-- One version of a CRD.  `schemaNil` models `version.Schema == nil` (the
pointer storeCRD dereferences when it builds the CRDInfo); `openAPINil`
models `version.Schema.OpenAPIV3Schema == nil`; `builderOk` models success
of the external validation.NewSchemaValidator call. -/
structure CRDVersion where
  name : Str
  served : Bool
  schemaNil : Bool
  openAPINil : Bool
  builderOk : Bool
  deriving DecidableEq, Repr

/-- The test `version.Schema != nil && version.Schema.OpenAPIV3Schema !=
nil` made by validateCRDStructure and createSchemaValidator. -/
def CRDVersion.hasSchema (v : CRDVersion) : Bool :=
  !v.schemaNil && !v.openAPINil

/-- Decoded CustomResourceDefinition document (the fields the source
reads). -/
structure GoCRD where
  kind : Str
  crdName : Str
  annotations : Fields
  group : Str
  namesKind : Str
  namesPlural : Str
  namesSingular : Str
  versions : List CRDVersion
  deriving DecidableEq, Repr

/-- Model of apis.CRDInfo (the opaque schema pointer is omitted; the derived
validator is tracked separately in the validators key set). -/
structure CRDInfo where
  name : Str
  plural : Str
  singular : Str
  group : Str
  kind : Str
  version : Str
  urnFormat : Str
  deriving DecidableEq, Repr

/-- Association-list assignment for an arbitrary value type (Go map set). -/
def alSet {β : Type} (m : List (Str × β)) (k : Str) (v : β) : List (Str × β) :=
  if m.any (fun p => p.1 == k) then
    m.map (fun p => if p.1 == k then (k, v) else p)
  else m ++ [(k, v)]

/-- Insert a key into a key set when absent (Go map set where only the key
matters). -/
def insKey (l : List Str) (k : Str) : List Str :=
  if l.contains k then l else l ++ [k]

/-- Model of FilesystemBackend state: the three maps guarded by crdsMutex
plus the configuration.  Validators are opaque, so the validators map is
modelled by its key set. -/
structure FilesystemBackend where
  crds : List (Str × CRDInfo)
  crdsByFile : List (Str × List GoCRD)
  validators : List Str
  ccrnGroup : Str
  loadedPaths : List Str
  deriving DecidableEq, Repr

/-- Model of validateCRDStructure: the structural checks on a decoded
document, returning the error message when one fails. -/
def validateCRDStructure (crd : GoCRD) : Option Str :=
  if crd.kind ≠ str "CustomResourceDefinition" then
    some (str "expected kind 'CustomResourceDefinition', got '" ++ crd.kind ++ str "'")
  else if crd.group = [] then some (str "CRD spec.group cannot be empty")
  else if crd.namesKind = [] then some (str "CRD spec.names.kind cannot be empty")
  else if crd.versions = [] then some (str "CRD must have at least one version")
  else if ¬ crd.versions.any (fun v => ¬ v.name.isEmpty && v.hasSchema) then
    some (str "CRD must have at least one version with a valid OpenAPI schema")
  else none

/-- Model of isCCRNRelevant: substring filter of the group by the configured
naming authority. -/
def isCCRNRelevant (ccrnGroup : Str) (crd : GoCRD) : Bool :=
  goContains crd.group ccrnGroup

/-- Model of getCRDKey: lowercase kind.group/version. -/
def getCRDKey (group version kind : Str) : Str :=
  goToLower (kind ++ str "." ++ group ++ str "/" ++ version)

/-- Model of extractURNTemplate: read the version-scoped annotation, empty
when absent. -/
def extractURNTemplate (crd : GoCRD) (version : Str) : Str :=
  match getF crd.annotations (str "ccrn/" ++ version ++ str ".urn-template") with
  | some u => u
  | none => []

/-- Store of one served version whose Schema pointer is not nil: store the
CRDInfo under the type key and register a validator when the OpenAPI schema
is present and the validator builder succeeds (a builder failure is logged
and skipped). -/
def storeServed (crd : GoCRD) (fb : FilesystemBackend) (v : CRDVersion) :
    FilesystemBackend :=
  let key := getCRDKey crd.group v.name crd.namesKind
  let info : CRDInfo :=
    { name := crd.crdName, plural := crd.namesPlural,
      singular := crd.namesSingular, group := crd.group,
      kind := crd.namesKind, version := v.name,
      urnFormat := extractURNTemplate crd v.name }
  let fb := { fb with crds := alSet fb.crds key info }
  if v.hasSchema && v.builderOk then
    { fb with validators := insKey fb.validators key }
  else fb

/-- Loop body of storeCRD for one CRD version: skip non-served versions; a
served version whose Schema pointer is nil hits the nil dereference
`version.Schema.OpenAPIV3Schema` inside the CRDInfo construction and panics
(none), before anything is stored for that version; otherwise store the
version. -/
def storeVersion (crd : GoCRD) (acc : Option FilesystemBackend)
    (v : CRDVersion) : Option FilesystemBackend :=
  match acc with
  | none => none
  | some fb =>
    if ¬ v.served then some fb
    else if v.schemaNil then none
    else some (storeServed crd fb v)

/-- Model of storeCRD: under one crdsMutex critical section, process every
version of one CRD; a served version with a nil Schema pointer crashes the
call (none), the versions stored before it staying in the maps. -/
def storeCRD (fb : FilesystemBackend) (crd : GoCRD) :
    Option FilesystemBackend :=
  crd.versions.foldl (storeVersion crd) (some fb)

/-- Crash-free restriction of the storeCRD loop body, used by the refresh
step model: it agrees with storeVersion on every version that is not served
or has a non-nil Schema pointer (see storeCRD_safe). -/
def storeVersionSafe (crd : GoCRD) (fb : FilesystemBackend)
    (v : CRDVersion) : FilesystemBackend :=
  if ¬ v.served then fb else storeServed crd fb v

/-- Crash-free restriction of storeCRD, agreeing with it on CRDs none of
whose served versions has a nil Schema pointer (see storeCRD_safe); the
storeOkB regime of the refresh step model lies inside that region. -/
def storeCRDSafe (fb : FilesystemBackend) (crd : GoCRD) : FilesystemBackend :=
  crd.versions.foldl (storeVersionSafe crd) fb

/-- A CRD none of whose served versions carries a nil Schema pointer: the
CRDs on which storeCRD does not hit the nil dereference. -/
def crdSafe (crd : GoCRD) : Bool :=
  crd.versions.all (fun v => !v.served || !v.schemaNil)

/-- One YAML sub-document, at the granularity the claims need: the YAML
decoding itself is external, so a document is given by its decode outcome. -/
inductive Doc where
  | emptyDoc
  | badYaml
  | parsed (crd : GoCRD)
  deriving DecidableEq, Repr

/-- Content of one file on disk: os.ReadFile failure, splitYAMLDocuments
failure (oversized scanner token), or the list of sub-documents. -/
inductive FileContent where
  | readErr
  | splitErr
  | docs (ds : List Doc)
  deriving DecidableEq, Repr

/-- One file matched by the glob pattern; isYaml models isYAMLFile(path). -/
structure FsFile where
  path : Str
  isYaml : Bool
  content : FileContent
  deriving DecidableEq, Repr

/-- Model of CRDLoadingResult. -/
structure CRDLoadingResult where
  processedFiles : Nat
  processedCRDs : Nat
  skippedCRDs : Nat
  errorCount : Nat
  errors : List Str
  loadedCRDKeys : List Str
  deriving DecidableEq, Repr

/-- Empty CRDLoadingResult accumulator. -/
def emptyResult : CRDLoadingResult :=
  { processedFiles := 0, processedCRDs := 0, skippedCRDs := 0,
    errorCount := 0, errors := [], loadedCRDKeys := [] }

/-- Keys contributed by the served versions of one stored CRD. -/
def servedKeys (crd : GoCRD) : List Str :=
  crd.versions.filterMap
    (fun v => if v.served then some (getCRDKey crd.group v.name crd.namesKind) else none)

/-- Per-document loop of processFile: skip empty documents, record an error
for undecodable or structurally invalid ones, silently skip irrelevant ones,
store the rest; a storeCRD panic propagates out of the loop (none).  Error
message text carries the file path; the document index and the wrapped
library error are abstracted. -/
def processDocs (g : Str) (filePath : Str) :
    List Doc → FilesystemBackend → CRDLoadingResult → List GoCRD →
    Option (FilesystemBackend × CRDLoadingResult × List GoCRD)
  | [], fb, r, loaded => some (fb, r, loaded)
  | d :: rest, fb, r, loaded =>
    match d with
    | .emptyDoc => processDocs g filePath rest fb r loaded
    | .badYaml =>
      processDocs g filePath rest fb
        { r with errorCount := r.errorCount + 1,
                 errors := r.errors ++ [str "file " ++ filePath ++ str ": failed to parse YAML"] }
        loaded
    | .parsed crd =>
      match validateCRDStructure crd with
      | some m =>
        processDocs g filePath rest fb
          { r with errorCount := r.errorCount + 1,
                   errors := r.errors ++ [str "file " ++ filePath ++ str ": invalid CRD structure: " ++ m] }
          loaded
      | none =>
        if ¬ isCCRNRelevant g crd then
          processDocs g filePath rest fb { r with skippedCRDs := r.skippedCRDs + 1 } loaded
        else
          match storeCRD fb crd with
          | none => none
          | some fb2 =>
            processDocs g filePath rest fb2
              { r with processedCRDs := r.processedCRDs + 1,
                       loadedCRDKeys := r.loadedCRDKeys ++ servedKeys crd }
              (loaded ++ [crd])

/-- Model of processFile: count the file, handle read/split failures, process
the documents, then store the file's loaded CRDs in crdsByFile under one
critical section; a storeCRD panic propagates (none). -/
def processFile (g : Str) (fb : FilesystemBackend) (f : FsFile)
    (r : CRDLoadingResult) : Option (FilesystemBackend × CRDLoadingResult) :=
  let r := { r with processedFiles := r.processedFiles + 1 }
  match f.content with
  | .readErr =>
    some (fb, { r with errorCount := r.errorCount + 1,
                       errors := r.errors ++ [str "failed to read file " ++ f.path] })
  | .splitErr =>
    some (fb, { r with errorCount := r.errorCount + 1,
                       errors := r.errors ++ [str "failed to split YAML documents in " ++ f.path] })
  | .docs ds =>
    match processDocs g f.path ds fb r [] with
    | none => none
    | some (fb, r, loaded) =>
      if loaded ≠ [] then
        some ({ fb with crdsByFile := alSet fb.crdsByFile f.path loaded }, r)
      else some (fb, r)

/-- File loop of LoadCRDs: process each matched YAML file in order; a panic
in one file stops the loop and the call (none). -/
def loadFiles (g : Str) :
    List FsFile → FilesystemBackend → CRDLoadingResult →
    Option (FilesystemBackend × CRDLoadingResult)
  | [], fb, r => some (fb, r)
  | f :: rest, fb, r =>
    if f.isYaml then
      match processFile g fb f r with
      | none => none
      | some (fb2, r2) => loadFiles g rest fb2 r2
    else loadFiles g rest fb r

/-- Model of LoadCRDs.  Glob resolution is I/O, so the matched file list is
an input; filepath.Glob itself errors only on a malformed pattern, which is
outside the batch semantics.  The call fails when nothing matched, and
otherwise only when zero CRDs loaded while errors were recorded; a storeCRD
panic crashes the whole call (none) instead of returning. -/
def LoadCRDs (g : Str) (fb : FilesystemBackend) (pattern : Str)
    (matchedFiles : List FsFile) :
    Option (FilesystemBackend × CRDLoadingResult × Option Str) :=
  if matchedFiles.isEmpty then
    some (fb, emptyResult, some (str "no files found matching pattern: " ++ pattern))
  else
    match loadFiles g matchedFiles fb emptyResult with
    | none => none
    | some (fb1, res) =>
      let fb2 := { fb1 with loadedPaths := fb1.loadedPaths ++ [pattern] }
      if res.processedCRDs = 0 ∧ res.errors ≠ [] then
        some (fb2, res, some (str "failed to load any CRDs"))
      else some (fb2, res, none)

/-- Spec-side classification used in the statements: a sub-document is
rejected when it fails YAML decoding or the structural checks (irrelevant
and empty documents are skipped, not rejected). -/
def docRejected : Doc → Bool
  | .emptyDoc => false
  | .badYaml => true
  | .parsed crd => (validateCRDStructure crd).isSome

/-- Spec-side classification: a sub-document is accepted (loaded) when it
decodes, passes the structural checks and matches the naming authority. -/
def docAccepted (g : Str) : Doc → Bool
  | .parsed crd => (validateCRDStructure crd).isNone && isCCRNRelevant g crd
  | _ => false

/-- A document that does not drive the loader into the storeCRD nil
dereference: any skipped or rejected document, or an accepted one whose
served versions all carry a Schema pointer. -/
def docSafe (g : Str) : Doc → Bool
  | .parsed crd =>
    !((validateCRDStructure crd).isNone && isCCRNRelevant g crd) || crdSafe crd
  | _ => true

/-- A file whose processing does not hit the storeCRD nil dereference. -/
def fileSafe (g : Str) (f : FsFile) : Bool :=
  !f.isYaml ||
    match f.content with
    | .docs ds => ds.all (docSafe g)
    | _ => true

/-- A batch on which LoadCRDs does not crash. -/
def batchSafe (g : Str) (files : List FsFile) : Bool :=
  files.all (fileSafe g)

/-- Number of rejected documents (plus read/split failures) in a file, zero
for files the loader does not even open. -/
def fileErrCount (f : FsFile) : Nat :=
  if ¬ f.isYaml then 0
  else match f.content with
    | .readErr => 1
    | .splitErr => 1
    | .docs ds => ds.countP (fun d => docRejected d)

/-- Number of accepted documents in a file. -/
def fileAccCount (g : Str) (f : FsFile) : Nat :=
  if ¬ f.isYaml then 0
  else match f.content with
    | .docs ds => ds.countP (fun d => docAccepted g d)
    | _ => 0

/-- Total rejected documents over a batch. -/
def specErrors (files : List FsFile) : Nat :=
  (files.map fileErrCount).sum

/-- Total accepted documents over a batch. -/
def specAccepted (g : Str) (files : List FsFile) : Nat :=
  (files.map (fileAccCount g)).sum

/-- Accepted CRDs of a document list, in processing order. -/
def acceptedCRDs (g : Str) (ds : List Doc) : List GoCRD :=
  ds.filterMap
    (fun d => match d with
      | .parsed crd =>
        if (validateCRDStructure crd).isNone && isCCRNRelevant g crd then some crd
        else none
      | _ => none)

/-- One crdsMutex critical section performed during Refresh and the reload it
triggers: the clearing write, one storeCRD call, or one crdsByFile write. -/
inductive RStep where
  | clearAll
  | store (crd : GoCRD)
  | fileStore (path : Str) (crds : List GoCRD)
  deriving DecidableEq, Repr

/-- Effect of one critical section on the backend state.  A store step uses
the crash-free storeCRDSafe: the refresh claim is stated in the storeOkB
regime, where it agrees with storeCRD (see storeCRD_safe) — a nil-Schema
served version would instead panic and end the trace. -/
def applyStep (fb : FilesystemBackend) : RStep → FilesystemBackend
  | .clearAll => { fb with crds := [], crdsByFile := [], validators := [] }
  | .store crd => storeCRDSafe fb crd
  | .fileStore p cs => { fb with crdsByFile := alSet fb.crdsByFile p cs }

/-- Critical sections performed while processing one file during a reload. -/
def fileSteps (g : Str) (f : FsFile) : List RStep :=
  if ¬ f.isYaml then []
  else match f.content with
    | .docs ds =>
      let acc := acceptedCRDs g ds
      acc.map RStep.store ++ (if acc ≠ [] then [RStep.fileStore f.path acc] else [])
    | _ => []

/-- Critical sections of one Refresh call: the clearing write, then the
stores performed by replaying LoadCRDs on every previously loaded path (a
path whose pattern matches nothing contributes no store). -/
def refreshSteps (g : Str) (paths : List (Str × List FsFile)) : List RStep :=
  RStep.clearAll ::
    paths.flatMap (fun pf => if pf.2.isEmpty then [] else pf.2.flatMap (fileSteps g))

/-- States a concurrent reader can observe: the state before the first and
after each critical section. -/
def statesOf (fb : FilesystemBackend) : List RStep → List FilesystemBackend
  | [] => [fb]
  | s :: rest => fb :: statesOf (applyStep fb s) rest

/-- The descriptor map and the validator map list the same type keys. -/
def mapsConsistent (fb : FilesystemBackend) : Prop :=
  ∀ k : Str, k ∈ fb.crds.map Prod.fst ↔ k ∈ fb.validators

/-- Every served version of a stored CRD carries a schema and a working
validator builder (the regime in which the spec states map consistency). -/
def storeOkB : RStep → Bool
  | .store crd =>
    crd.versions.all (fun v => !v.served || (v.hasSchema && v.builderOk))
  | _ => true

/-- Example CRDInfo used to exhibit observable intermediate refresh states. -/
def exC7info : CRDInfo :=
  { name := str "x", plural := str "xs", singular := str "x", group := str "g",
    kind := str "K", version := str "v1", urnFormat := [] }

/-- Example CRD whose single served version carries a schema and builds a
validator. -/
def exC7crd : GoCRD :=
  { kind := str "CustomResourceDefinition", crdName := str "x",
    annotations := [], group := str "g", namesKind := str "K",
    namesPlural := str "xs", namesSingular := str "x",
    versions := [⟨str "v1", true, false, false, true⟩] }

/-- Poison CRD: structurally valid (version v0 carries a schema) and
relevant, but its served version v1 has a nil Schema pointer, so storeCRD
dereferences nil on it. -/
def exC6crd : GoCRD :=
  { kind := str "CustomResourceDefinition", crdName := str "y",
    annotations := [], group := str "g", namesKind := str "K2",
    namesPlural := str "ys", namesSingular := str "y",
    versions := [⟨str "v0", false, false, false, true⟩,
                 ⟨str "v1", true, true, true, false⟩] }

/-- Batch whose first document loads a type and whose second crashes the
call inside storeCRD. -/
def exC6files : List FsFile :=
  [⟨str "a.yaml", true, FileContent.docs [Doc.parsed exC7crd, Doc.parsed exC6crd]⟩]

/-- Example backend state holding one loaded type with its validator. -/
def exC7fb : FilesystemBackend :=
  { crds := [(getCRDKey (str "g") (str "v1") (str "K"), exC7info)],
    crdsByFile := [(str "f.yaml", [exC7crd])],
    validators := [getCRDKey (str "g") (str "v1") (str "K")],
    ccrnGroup := str "g", loadedPaths := [str "p"] }

/-- Example refresh source: one path resolving to one file holding the same
CRD again. -/
def exC7paths : List (Str × List FsFile) :=
  [(str "p", [⟨str "f.yaml", true, FileContent.docs [Doc.parsed exC7crd]⟩])]

/-! Basic facts about the Go string models. -/

theorem goSplit_ne_nil (sep : Char) (s : Str) : goSplit sep s ≠ [] := by
  cases s with
  | nil => simp [goSplit]
  | cons c rest =>
    simp only [goSplit]
    cases h : goSplit sep rest with
    | nil => simp
    | cons a t => by_cases hc : (c == sep) = true <;> simp [hc]

theorem goSplitN_length_le (sep : Char) : ∀ (n : Nat) (s : Str), (goSplitN sep s n).length ≤ n
  | 0, _ => by simp [goSplitN]
  | 1, _ => by simp [goSplitN]
  | n + 2, s => by
    simp only [goSplitN]
    cases h : splitFirst sep s with
    | none => simp
    | some p =>
      obtain ⟨a, b⟩ := p
      simpa using Nat.succ_le_succ (goSplitN_length_le sep (n + 1) b)

theorem isPre_append_self (p s : Str) : isPre p (p ++ s) = true := by
  induction p with
  | nil => simp [isPre]
  | cons a as ih => simp [isPre, ih]

theorem goTrimPre_cancel (p s : Str) : goTrimPre (p ++ s) p = s := by
  simp [goTrimPre, isPre_append_self, List.drop_left]

theorem splitFirst_eq_none (sep : Char) :
    ∀ s : Str, (∀ c ∈ s, c ≠ sep) → splitFirst sep s = none
  | [], _ => rfl
  | c :: rest, h => by
    have hc : (c == sep) = false := by
      simpa using h c (List.mem_cons_self c rest)
    simp [splitFirst, hc,
      splitFirst_eq_none sep rest (fun x hx => h x (List.mem_cons_of_mem c hx))]

theorem goSplitN_of_none (sep : Char) (s : Str) (h : splitFirst sep s = none) :
    ∀ n : Nat, goSplitN sep s (n + 1) = [s]
  | 0 => rfl
  | n + 1 => by simp [goSplitN, h]

/-! Core fact driving claims C1, C2 and C4: the template parse path of the
source can never return a field map, because SplitN caps the number of body
pieces at the number of template segments while the rebuilt parts list is one
shorter, so the segment-count guard always fires (or the parts[0] assignment
panics when the body yields fewer than two pieces). -/

theorem parseURNFields_not_ok (urn tpl : Str) : (parseURNFields urn tpl).isOk = false := by
  unfold parseURNFields
  split
  · rfl
  split
  · rfl
  dsimp only
  split
  next t0 t1 restParts heq =>
    have hle : 2 + restParts.length ≤
        (goSplit '/' (goTrimPre tpl (str "urn:ccrn:"))).length := by
      have h2 := goSplitN_length_le '/'
        ((goSplit '/' (goTrimPre tpl (str "urn:ccrn:"))).length)
        (goTrimPre urn (str "urn:ccrn:"))
      rw [heq] at h2
      simp only [List.length_cons] at h2
      omega
    have hcond : ((t0 ++ str "/" ++ t1) ::
        restParts.map (fun s => if s.isEmpty then [] else s)).length <
        (goSplit '/' (goTrimPre tpl (str "urn:ccrn:"))).length := by
      simp only [List.length_cons, List.length_map]
      omega
    rw [if_pos hcond]
    rfl
  next => rfl

theorem parseURNFields_crashes (body tpl : Str)
    (htpl : isPre (str "urn:ccrn:") tpl = true)
    (hbody : ∀ c ∈ body, c ≠ '/') :
    parseURNFields (str "urn:ccrn:" ++ body) tpl = Res.crashed := by
  unfold parseURNFields
  rw [goTrimPre_cancel]
  split
  next h => exact absurd (isPre_append_self (str "urn:ccrn:") body) (by simpa using h)
  dsimp only
  have hN : ∃ m, (goSplit '/' (goTrimPre tpl (str "urn:ccrn:"))).length = m + 1 := by
    cases h : goSplit '/' (goTrimPre tpl (str "urn:ccrn:")) with
    | nil => exact absurd h (goSplit_ne_nil _ _)
    | cons a t => exact ⟨t.length, by simp⟩
  obtain ⟨m, hm⟩ := hN
  rw [hm, goSplitN_of_none '/' body (splitFirst_eq_none '/' body hbody) m]

/-- Claim C2: for every URN input and template both starting with
'urn:ccrn:' whose segments match positionally, parseURN is claimed to
succeed with one field per placeholder.  The code never succeeds: on the
well-matched input urn:ccrn:t.g/v1/c1/n1 against
urn:ccrn:<ccrn>/<cluster>/<name> it returns the segment-count error, and no
input and template at all make parseURNFields return a field map. -/
theorem claim_C2_urn_parse :
    parseURNFields (str "urn:ccrn:t.g/v1/c1/n1") (str "urn:ccrn:<ccrn>/<cluster>/<name>")
      = Res.err (str "URN and template do not match in segment count. Expected format urn:ccrn:<ccrn>/<cluster>/<name> segments, got: urn:ccrn:t.g/v1/c1/n1")
    ∧ ∀ urn tpl : Str, (parseURNFields urn tpl).isOk = false :=
  ⟨by decide, fun urn tpl => parseURNFields_not_ok urn tpl⟩

/-- Claim C4: an input with fewer slash-delimited segments than the template
requires is claimed to fail with the segment-count-mismatch error.  That is
what happens on the claim's own example, but an input whose body has no
slash at all (also fewer segments than required) makes the source panic with
an index-out-of-range on parts[0] instead of returning the error. -/
theorem claim_C4_segment_count (body tpl : Str)
    (htpl : isPre (str "urn:ccrn:") tpl = true)
    (hbody : ∀ c ∈ body, c ≠ '/') :
    parseURNFields (str "urn:ccrn:" ++ body) tpl = Res.crashed
    ∧ parseURNFields (str "urn:ccrn:t.g/v1/eu-de-1") (str "urn:ccrn:<ccrn>/<cluster>/<name>")
      = Res.err (str "URN and template do not match in segment count. Expected format urn:ccrn:<ccrn>/<cluster>/<name> segments, got: urn:ccrn:t.g/v1/eu-de-1") :=
  ⟨parseURNFields_crashes body tpl htpl hbody, by decide⟩

/-- Witness for claim C4 at the concrete input urn:ccrn:t.g. -/
theorem claim_C4_segment_count_witness :
    parseURNFields (str "urn:ccrn:t.g") (str "urn:ccrn:<ccrn>/<cluster>/<name>") = Res.crashed := by
  have h := claim_C4_segment_count (str "t.g") (str "urn:ccrn:<ccrn>/<cluster>/<name>")
    (by decide) (by decide)
  exact h.1

/-- Claim C1: the round trip renderURN then parseURN is claimed to return
the original field mapping.  The render step produces the expected URN, but
the parse step always fails with the segment-count error, so the round trip
never completes for any field mapping and template. -/
theorem claim_C1_round_trip :
    parseCCRNFields (str "ccrn=t.g/v1, cluster=c1, name=n1")
      = Res.ok [(str "ccrn", str "t.g/v1"), (str "cluster", str "c1"), (str "name", str "n1")]
    ∧ renderFold [(str "ccrn", str "t.g/v1"), (str "cluster", str "c1"), (str "name", str "n1")]
        (str "urn:ccrn:<ccrn>/<cluster>/<name>") = str "urn:ccrn:t.g/v1/c1/n1"
    ∧ parseURNFields (str "urn:ccrn:t.g/v1/c1/n1") (str "urn:ccrn:<ccrn>/<cluster>/<name>")
      = Res.err (str "URN and template do not match in segment count. Expected format urn:ccrn:<ccrn>/<cluster>/<name> segments, got: urn:ccrn:t.g/v1/c1/n1")
    ∧ ∀ (fields : Fields) (template : Str),
        (parseURNFields (renderFold fields template) template).isOk = false :=
  ⟨by decide, by decide, by decide,
    fun fields template => parseURNFields_not_ok (renderFold fields template) template⟩

/-! Presence of the ccrn field on successful parses (claims C3 and C5). -/

theorem parseCCRNFields_ccrn (s : Str) (f : Fields)
    (h : parseCCRNFields s = Res.ok f) : getF f (str "ccrn") ≠ none := by
  unfold parseCCRNFields at h
  split at h
  · exact absurd h (by simp)
  dsimp only at h
  split at h
  next fields hpe =>
    split at h
    · exact absurd h (by simp)
    next hne =>
      cases h
      exact hne
  next _ _ hne =>
    exact (hne f h).elim

theorem parseURNFields_ccrn (urn tpl : Str) (f : Fields)
    (h : parseURNFields urn tpl = Res.ok f) : getF f (str "ccrn") ≠ none := by
  have hok := parseURNFields_not_ok urn tpl
  rw [h] at hok
  simp [Res.isOk] at hok

theorem parseURNCCRNField_ne_nil (urn : Str) (k : Str)
    (h : parseURNCCRNField urn = Res.ok k) : k ≠ [] := by
  unfold parseURNCCRNField at h
  dsimp only at h
  cases hg : goSplit '/' (goTrimPre urn (str "urn:ccrn:")) with
  | nil => rw [hg] at h; exact absurd h (by simp)
  | cons p0 tl =>
    cases tl with
    | nil => rw [hg] at h; exact absurd h (by simp)
    | cons p1 tl2 =>
      cases tl2 with
      | nil => rw [hg] at h; exact absurd h (by simp)
      | cons c rest =>
        rw [hg] at h
        cases h
        simp [str]

/-- Claim C3 counterexample: the input "ccrn=" parses successfully although
its ccrn value is the empty string, so a successfully parsed result does not
always carry a non-empty ccrn value. -/
theorem claim_C3_counterexample :
    parseCCRNFields (str "ccrn=") = Res.ok [(str "ccrn", [])]
    ∧ getF [(str "ccrn", ([] : Str))] (str "ccrn") = some [] := by
  constructor <;> decide

/-- Claim C3 (amended): on every successful parse the ccrn key is present in
the field mapping (its absence is a parse failure), and the bootstrap URN
parse always produces a non-empty type key; the field-list parse, however,
may bind ccrn to the empty string. -/
theorem claim_C3_ccrn_presence :
    (∀ (s : Str) (f : Fields), parseCCRNFields s = Res.ok f → getF f (str "ccrn") ≠ none)
    ∧ (∀ (urn tpl : Str) (f : Fields),
        parseURNFields urn tpl = Res.ok f → getF f (str "ccrn") ≠ none)
    ∧ (∀ (urn k : Str), parseURNCCRNField urn = Res.ok k → k ≠ []) :=
  ⟨parseCCRNFields_ccrn, parseURNFields_ccrn, parseURNCCRNField_ne_nil⟩

/-- Witness for claim C3 on concrete successful parses of both forms. -/
theorem claim_C3_ccrn_presence_witness :
    getF [(str "ccrn", str "t.g/v1")] (str "ccrn") ≠ none ∧ str "a.b/v1" ≠ [] :=
  ⟨claim_C3_ccrn_presence.1 (str "ccrn=t.g/v1") [(str "ccrn", str "t.g/v1")] (by decide),
   claim_C3_ccrn_presence.2.2 (str "urn:ccrn:a.b/v1/x") (str "a.b/v1") (by decide)⟩

/-- Claim C5: for every URN urn:ccrn:A/B/... that parses successfully, the
type key equals the first two slash-delimited body segments joined by a
slash: the bootstrap parse returns exactly that string, and any successful
template parse (of which the code has none) would bind ccrn to it. -/
theorem claim_C5_type_key (body k : Str)
    (h : parseURNCCRNField (str "urn:ccrn:" ++ body) = Res.ok k) :
    k = (goSplit '/' body).getD 0 [] ++ str "/" ++ (goSplit '/' body).getD 1 []
    ∧ ∀ (tpl : Str) (f : Fields),
        parseURNFields (str "urn:ccrn:" ++ body) tpl = Res.ok f →
        getF f (str "ccrn")
          = some ((goSplit '/' body).getD 0 [] ++ str "/" ++ (goSplit '/' body).getD 1 []) := by
  constructor
  · unfold parseURNCCRNField at h
    rw [goTrimPre_cancel] at h
    dsimp only at h
    cases hg : goSplit '/' body with
    | nil => rw [hg] at h; exact absurd h (by simp)
    | cons p0 tl =>
      cases tl with
      | nil => rw [hg] at h; exact absurd h (by simp)
      | cons p1 tl2 =>
        cases tl2 with
        | nil => rw [hg] at h; exact absurd h (by simp)
        | cons c rest =>
          rw [hg] at h
          cases h
          simp [List.getD]
  · intro tpl f hf
    have hok := parseURNFields_not_ok (str "urn:ccrn:" ++ body) tpl
    rw [hf] at hok
    simp [Res.isOk] at hok

/-- Witness for claim C5 at the concrete URN urn:ccrn:a.b/v1/x. -/
theorem claim_C5_type_key_witness :
    str "a.b/v1"
      = (goSplit '/' (str "a.b/v1/x")).getD 0 [] ++ str "/"
        ++ (goSplit '/' (str "a.b/v1/x")).getD 1 [] :=
  (claim_C5_type_key (str "a.b/v1/x") (str "a.b/v1") (by decide)).1

/-! Trimming, splitting and quote-stripping lemmas for claim C8. -/

theorem dropWhile_append_all {α : Type} (p : α → Bool) (xs ys : List α)
    (h : ∀ a ∈ xs, p a = true) :
    (xs ++ ys).dropWhile p = ys.dropWhile p := by
  induction xs with
  | nil => rfl
  | cons a l ih =>
    have ha : p a = true := h a (by simp)
    simp only [List.cons_append, List.dropWhile_cons_of_pos ha]
    exact ih (fun b hb => h b (by simp [hb]))

theorem head_false_of_dropWhile_fix {α : Type} (p : α → Bool) (a : α) (l : List α)
    (h : (a :: l).dropWhile p = a :: l) : p a = false := by
  by_cases hp : p a = true
  · rw [List.dropWhile_cons, if_pos hp] at h
    have h1 := congrArg List.length h
    have h2 := (List.dropWhile_sublist (p := p) (l := l)).length_le
    simp at h1
    omega
  · simpa using hp

theorem ne_of_white {c d : Char} (h1 : isWhite c = true) (h2 : isWhite d = false) :
    c ≠ d := by
  intro heq
  rw [heq, h2] at h1
  cases h1

theorem dropWhileFix_append (a : Str) (ha : a ≠ [])
    (hfix : a.dropWhile isWhite = a) (b : Str) :
    (a ++ b).dropWhile isWhite = a ++ b := by
  cases a with
  | nil => exact absurd rfl ha
  | cons a0 ar =>
    have h0 : isWhite a0 = false := head_false_of_dropWhile_fix _ _ _ hfix
    simp [List.dropWhile_cons_of_neg, h0]

theorem revFix_append (b : Str) (hb : b ≠ [])
    (hfix : b.reverse.dropWhile isWhite = b.reverse) (a : Str) :
    (a ++ b).reverse.dropWhile isWhite = (a ++ b).reverse := by
  obtain ⟨v0, vr, hv⟩ : ∃ v0 vr, b.reverse = v0 :: vr := by
    cases hrev : b.reverse with
    | nil => exact absurd (by simpa using congrArg List.reverse hrev) hb
    | cons v0 vr => exact ⟨v0, vr, rfl⟩
  have h0 : isWhite v0 = false := by
    apply head_false_of_dropWhile_fix (p := isWhite) v0 vr
    rw [← hv]
    exact hfix
  rw [List.reverse_append, hv]
  simp [List.dropWhile_cons_of_neg, h0]

theorem trimSandwich (sp1 sp2 mid : Str)
    (h1 : ∀ c ∈ sp1, isWhite c = true) (h2 : ∀ c ∈ sp2, isWhite c = true)
    (hne : mid ≠ []) (hL : mid.dropWhile isWhite = mid)
    (hR : mid.reverse.dropWhile isWhite = mid.reverse) :
    goTrimSpace (sp1 ++ mid ++ sp2) = mid := by
  unfold goTrimSpace
  rw [List.append_assoc, dropWhile_append_all _ _ _ h1,
    dropWhileFix_append mid hne hL sp2, List.reverse_append,
    dropWhile_append_all _ _ _ (fun c hc => h2 c (by simpa using hc)), hR,
    List.reverse_reverse]

theorem goSplit_no_sep (sep : Char) :
    ∀ s : Str, (∀ c ∈ s, c ≠ sep) → goSplit sep s = [s]
  | [], _ => rfl
  | c :: rest, h => by
    have hc : (c == sep) = false := by simpa using h c (by simp)
    simp [goSplit, goSplit_no_sep sep rest (fun x hx => h x (by simp [hx])), hc]

theorem goSplit_append (sep : Char) :
    ∀ a b : Str, (∀ c ∈ a, c ≠ sep) →
      goSplit sep (a ++ sep :: b) = a :: goSplit sep b
  | [], b, _ => by
    show goSplit sep (sep :: b) = [] :: goSplit sep b
    simp only [goSplit]
    cases hg : goSplit sep b with
    | nil => exact absurd hg (goSplit_ne_nil sep b)
    | cons hh tt => simp
  | a0 :: a1, b, h => by
    show goSplit sep (a0 :: (a1 ++ sep :: b)) = (a0 :: a1) :: goSplit sep b
    simp only [goSplit]
    rw [goSplit_append sep a1 b (fun c hc => h c (by simp [hc]))]
    have h0 : (a0 == sep) = false := by simpa using h a0 (by simp)
    simp [h0]

theorem splitFirst_append (sep : Char) :
    ∀ a b : Str, (∀ c ∈ a, c ≠ sep) →
      splitFirst sep (a ++ sep :: b) = some (a, b)
  | [], b, _ => by simp [splitFirst]
  | a0 :: a1, b, h => by
    have h0 : (a0 == sep) = false := by simpa using h a0 (by simp)
    simp [splitFirst, h0, splitFirst_append sep a1 b (fun c hc => h c (by simp [hc]))]

theorem goSplitN_two (sep : Char) (a b : Str) (h : ∀ c ∈ a, c ≠ sep) :
    goSplitN sep (a ++ sep :: b) 2 = [a, b] := by
  simp [goSplitN, splitFirst_append sep a b h]

theorem stripQuotes_quoted (value : Str) :
    stripQuotes (str "\"" ++ (value ++ str "\"")) = value := by
  have hcons : str "\"" ++ (value ++ str "\"") = '"' :: (value ++ ['"']) := rfl
  rw [hcons]
  unfold stripQuotes
  rw [if_pos]
  · simp
  · refine ⟨by simp, by simp, ?_⟩
    have : ('"' :: (value ++ ['"'])) = ('"' :: value) ++ ['"'] := by simp
    rw [this, List.getLast?_concat]

theorem stripQuotes_plain (value : Str)
    (h : ¬(2 ≤ value.length ∧ value.head? = some '"' ∧ value.getLast? = some '"')) :
    stripQuotes value = value := by
  unfold stripQuotes
  rw [if_neg h]

theorem processEntries_entry (sp1 sp2 sp3 : Str) (key rv : Str)
    (rest : List Str) (fields : Fields)
    (hsp1 : ∀ c ∈ sp1, isWhite c = true) (hsp2 : ∀ c ∈ sp2, isWhite c = true)
    (hsp3 : ∀ c ∈ sp3, isWhite c = true)
    (hkne : key ≠ []) (hkL : key.dropWhile isWhite = key)
    (hkR : key.reverse.dropWhile isWhite = key.reverse)
    (hkeq : ∀ c ∈ key, c ≠ '=')
    (hrvne : rv ≠ []) (hrvL : rv.dropWhile isWhite = rv)
    (hrvR : rv.reverse.dropWhile isWhite = rv.reverse) :
    processEntries ((sp1 ++ (key ++ (sp2 ++ (str "=" ++ (sp3 ++ rv))))) :: rest) fields
      = processEntries rest (mapSet fields key (stripQuotes rv)) := by
  have hmidne : key ++ (sp2 ++ (str "=" ++ (sp3 ++ rv))) ≠ [] := by
    simp [hkne]
  have hmidL : (key ++ (sp2 ++ (str "=" ++ (sp3 ++ rv)))).dropWhile isWhite
      = key ++ (sp2 ++ (str "=" ++ (sp3 ++ rv))) :=
    dropWhileFix_append key hkne hkL _
  have hmidR : (key ++ (sp2 ++ (str "=" ++ (sp3 ++ rv)))).reverse.dropWhile isWhite
      = (key ++ (sp2 ++ (str "=" ++ (sp3 ++ rv)))).reverse := by
    have e : key ++ (sp2 ++ (str "=" ++ (sp3 ++ rv)))
        = (key ++ sp2 ++ str "=" ++ sp3) ++ rv := by simp [List.append_assoc]
    rw [e]
    exact revFix_append rv hrvne hrvR _
  have htrim : goTrimSpace (sp1 ++ (key ++ (sp2 ++ (str "=" ++ (sp3 ++ rv)))))
      = key ++ (sp2 ++ (str "=" ++ (sp3 ++ rv))) := by
    have e : sp1 ++ (key ++ (sp2 ++ (str "=" ++ (sp3 ++ rv))))
        = sp1 ++ (key ++ (sp2 ++ (str "=" ++ (sp3 ++ rv)))) ++ [] := by simp
    rw [e]
    exact trimSandwich sp1 [] _ hsp1 (by simp) hmidne hmidL hmidR
  have hsplit : goSplitN '=' (key ++ (sp2 ++ (str "=" ++ (sp3 ++ rv)))) 2
      = [key ++ sp2, sp3 ++ rv] := by
    have e : key ++ (sp2 ++ (str "=" ++ (sp3 ++ rv)))
        = (key ++ sp2) ++ '=' :: (sp3 ++ rv) := by simp [List.append_assoc]; rfl
    rw [e]
    refine goSplitN_two '=' (key ++ sp2) (sp3 ++ rv) ?_
    intro c hc
    rcases List.mem_append.mp hc with h | h
    · exact hkeq c h
    · exact ne_of_white (hsp2 c h) (by decide)
  have hkeyTrim : goTrimSpace (key ++ sp2) = key := by
    have e : key ++ sp2 = [] ++ key ++ sp2 := by simp
    rw [e]
    exact trimSandwich [] sp2 key (by simp) hsp2 hkne hkL hkR
  have hvalTrim : goTrimSpace (sp3 ++ rv) = rv := by
    have e : sp3 ++ rv = sp3 ++ rv ++ [] := by simp
    rw [e]
    exact trimSandwich sp3 [] rv hsp3 (by simp) hrvne hrvL hrvR
  have hne2 : (key ++ (sp2 ++ (str "=" ++ (sp3 ++ rv)))).isEmpty = false := by
    cases key with
    | nil => exact absurd rfl hkne
    | cons k0 kr => rfl
  simp only [processEntries, htrim, hne2, hsplit, hkeyTrim, hvalTrim]
  rfl

theorem parseCCRN_two (sp1 sp2 sp3 sp4 : Str) (key rv : Str)
    (hsp1 : ∀ c ∈ sp1, isWhite c = true) (hsp2 : ∀ c ∈ sp2, isWhite c = true)
    (hsp3 : ∀ c ∈ sp3, isWhite c = true) (hsp4 : ∀ c ∈ sp4, isWhite c = true)
    (hkne : key ≠ []) (hkL : key.dropWhile isWhite = key)
    (hkR : key.reverse.dropWhile isWhite = key.reverse)
    (hkeq : ∀ c ∈ key, c ≠ '=') (hknc : ∀ c ∈ key, c ≠ ',')
    (hkccrn : key ≠ str "ccrn")
    (hrvne : rv ≠ []) (hrvL : rv.dropWhile isWhite = rv)
    (hrvR : rv.reverse.dropWhile isWhite = rv.reverse)
    (hrvnc : ∀ c ∈ rv, c ≠ ',') :
    parseCCRNFields
        ((str "ccrn=t.g/v1," ++ (sp1 ++ (key ++ (sp2 ++ (str "=" ++ (sp3 ++ rv)))))) ++ sp4)
      = Res.ok [(str "ccrn", str "t.g/v1"), (key, stripQuotes rv)] := by
  have e0 : str "ccrn=t.g/v1," = str "ccrn=" ++ str "t.g/v1," := by decide
  have hpre : isPre (str "ccrn=")
      ((str "ccrn=t.g/v1," ++ (sp1 ++ (key ++ (sp2 ++ (str "=" ++ (sp3 ++ rv)))))) ++ sp4)
      = true := by
    rw [e0, List.append_assoc, List.append_assoc]
    exact isPre_append_self _ _
  have hMne : str "ccrn=t.g/v1," ++ (sp1 ++ (key ++ (sp2 ++ (str "=" ++ (sp3 ++ rv))))) ≠ [] :=
    List.append_ne_nil_of_left_ne_nil (by decide) _
  have hML : (str "ccrn=t.g/v1," ++ (sp1 ++ (key ++ (sp2 ++ (str "=" ++ (sp3 ++ rv)))))).dropWhile isWhite
      = str "ccrn=t.g/v1," ++ (sp1 ++ (key ++ (sp2 ++ (str "=" ++ (sp3 ++ rv))))) :=
    dropWhileFix_append (str "ccrn=t.g/v1,") (by decide) (by decide) _
  have hMR : (str "ccrn=t.g/v1," ++ (sp1 ++ (key ++ (sp2 ++ (str "=" ++ (sp3 ++ rv)))))).reverse.dropWhile isWhite
      = (str "ccrn=t.g/v1," ++ (sp1 ++ (key ++ (sp2 ++ (str "=" ++ (sp3 ++ rv)))))).reverse := by
    have e : str "ccrn=t.g/v1," ++ (sp1 ++ (key ++ (sp2 ++ (str "=" ++ (sp3 ++ rv)))))
        = (str "ccrn=t.g/v1," ++ sp1 ++ key ++ sp2 ++ str "=" ++ sp3) ++ rv := by
      simp [List.append_assoc]
    rw [e]
    exact revFix_append rv hrvne hrvR _
  have htrim : goTrimSpace
      ((str "ccrn=t.g/v1," ++ (sp1 ++ (key ++ (sp2 ++ (str "=" ++ (sp3 ++ rv)))))) ++ sp4)
      = str "ccrn=t.g/v1," ++ (sp1 ++ (key ++ (sp2 ++ (str "=" ++ (sp3 ++ rv))))) := by
    have e : (str "ccrn=t.g/v1," ++ (sp1 ++ (key ++ (sp2 ++ (str "=" ++ (sp3 ++ rv)))))) ++ sp4
        = [] ++ (str "ccrn=t.g/v1," ++ (sp1 ++ (key ++ (sp2 ++ (str "=" ++ (sp3 ++ rv)))))) ++ sp4 := by
      simp
    rw [e]
    exact trimSandwich [] sp4 _ (by simp) hsp4 hMne hML hMR
  have e2 : str "ccrn=t.g/v1," ++ (sp1 ++ (key ++ (sp2 ++ (str "=" ++ (sp3 ++ rv)))))
      = str "ccrn=t.g/v1" ++ ',' :: (sp1 ++ (key ++ (sp2 ++ (str "=" ++ (sp3 ++ rv))))) := by
    have : str "ccrn=t.g/v1," = str "ccrn=t.g/v1" ++ [','] := by decide
    rw [this, List.append_assoc]
    rfl
  have hnocomma : ∀ c ∈ sp1 ++ (key ++ (sp2 ++ (str "=" ++ (sp3 ++ rv)))), c ≠ ',' := by
    intro c hc
    rcases List.mem_append.mp hc with h | h15
    · exact ne_of_white (hsp1 c h) (by decide)
    rcases List.mem_append.mp h15 with h | h25
    · exact hknc c h
    rcases List.mem_append.mp h25 with h | h35
    · exact ne_of_white (hsp2 c h) (by decide)
    rcases List.mem_append.mp h35 with h | h45
    · have : c = '=' := by simpa [str] using h
      rw [this]; decide
    rcases List.mem_append.mp h45 with h | h
    · exact ne_of_white (hsp3 c h) (by decide)
    · exact hrvnc c h
  have hsplitc : goSplit ','
      (str "ccrn=t.g/v1," ++ (sp1 ++ (key ++ (sp2 ++ (str "=" ++ (sp3 ++ rv))))))
      = [str "ccrn=t.g/v1", sp1 ++ (key ++ (sp2 ++ (str "=" ++ (sp3 ++ rv))))] := by
    rw [e2, goSplit_append ',' _ _ (by decide),
      goSplit_no_sep ',' _ hnocomma]
  unfold parseCCRNFields
  rw [if_neg (not_not_intro hpre)]
  dsimp only
  rw [htrim, hsplitc]
  rw [show processEntries
      [str "ccrn=t.g/v1", sp1 ++ (key ++ (sp2 ++ (str "=" ++ (sp3 ++ rv))))] ([] : Fields)
      = processEntries [sp1 ++ (key ++ (sp2 ++ (str "=" ++ (sp3 ++ rv))))]
          [(str "ccrn", str "t.g/v1")] from rfl]
  rw [processEntries_entry sp1 sp2 sp3 key rv [] [(str "ccrn", str "t.g/v1")]
    hsp1 hsp2 hsp3 hkne hkL hkR hkeq hrvne hrvL hrvR]
  have hbk : (str "ccrn" == key) = false := by
    rw [beq_eq_false_iff_ne]
    exact fun h => hkccrn h.symm
  have hmap : mapSet [(str "ccrn", str "t.g/v1")] key (stripQuotes rv)
      = [(str "ccrn", str "t.g/v1"), (key, stripQuotes rv)] := by
    simp [mapSet, hbk]
  rw [hmap]
  have hget : getF [(str "ccrn", str "t.g/v1"), (key, stripQuotes rv)] (str "ccrn")
      = some (str "t.g/v1") := by
    simp [getF]
  simp [processEntries, hget]

/-- Claim C8: in a field-list entry, whitespace around the key and the value
is trimmed and a trimmed value wholly wrapped in one pair of double quotes
has exactly that pair stripped with no other transformation (the quoted
value itself, spaces and all, is preserved); an unquoted trimmed value is
kept unchanged.  Instantiated at the spec's example in the witness. -/
theorem claim_C8_value_normalization (sp1 sp2 sp3 sp4 : Str) (key value : Str)
    (hsp1 : ∀ c ∈ sp1, isWhite c = true) (hsp2 : ∀ c ∈ sp2, isWhite c = true)
    (hsp3 : ∀ c ∈ sp3, isWhite c = true) (hsp4 : ∀ c ∈ sp4, isWhite c = true)
    (hkne : key ≠ []) (hkL : key.dropWhile isWhite = key)
    (hkR : key.reverse.dropWhile isWhite = key.reverse)
    (hkeq : ∀ c ∈ key, c ≠ '=') (hknc : ∀ c ∈ key, c ≠ ',')
    (hkccrn : key ≠ str "ccrn")
    (hvnc : ∀ c ∈ value, c ≠ ',') :
    parseCCRNFields (str "ccrn=t.g/v1," ++ sp1 ++ key ++ sp2 ++ str "=" ++ sp3
        ++ str "\"" ++ value ++ str "\"" ++ sp4)
      = Res.ok [(str "ccrn", str "t.g/v1"), (key, value)]
    ∧ (value ≠ [] → value.dropWhile isWhite = value →
        value.reverse.dropWhile isWhite = value.reverse →
        ¬(2 ≤ value.length ∧ value.head? = some '"' ∧ value.getLast? = some '"') →
        parseCCRNFields (str "ccrn=t.g/v1," ++ sp1 ++ key ++ sp2 ++ str "=" ++ sp3
            ++ value ++ sp4)
          = Res.ok [(str "ccrn", str "t.g/v1"), (key, value)]) := by
  constructor
  · have e : str "ccrn=t.g/v1," ++ sp1 ++ key ++ sp2 ++ str "=" ++ sp3
        ++ str "\"" ++ value ++ str "\"" ++ sp4
        = str "ccrn=t.g/v1," ++ (sp1 ++ (key ++ (sp2 ++ (str "=" ++ (sp3
            ++ (str "\"" ++ (value ++ str "\""))))))) ++ sp4 := by
      simp [List.append_assoc]
    have hrvR : (str "\"" ++ (value ++ str "\"")).reverse.dropWhile isWhite
        = (str "\"" ++ (value ++ str "\"")).reverse := by
      have e2 : str "\"" ++ (value ++ str "\"") = (str "\"" ++ value) ++ ['"'] := by
        simp [str]
      rw [e2]
      exact revFix_append ['"'] (by decide) (by decide) _
    have hrvnc : ∀ c ∈ str "\"" ++ (value ++ str "\""), c ≠ ',' := by
      intro c hc
      rcases List.mem_append.mp hc with h | h2
      · have : c = '"' := by simpa [str] using h
        rw [this]; decide
      rcases List.mem_append.mp h2 with h | h
      · exact hvnc c h
      · have : c = '"' := by simpa [str] using h
        rw [this]; decide
    rw [e, parseCCRN_two sp1 sp2 sp3 sp4 key (str "\"" ++ (value ++ str "\""))
      hsp1 hsp2 hsp3 hsp4 hkne hkL hkR hkeq hknc hkccrn
      (by simp [str]) (dropWhileFix_append (str "\"") (by decide) (by decide) _)
      hrvR hrvnc, stripQuotes_quoted]
  · intro hvne hvL hvR hnq
    have e : str "ccrn=t.g/v1," ++ sp1 ++ key ++ sp2 ++ str "=" ++ sp3 ++ value ++ sp4
        = str "ccrn=t.g/v1," ++ (sp1 ++ (key ++ (sp2 ++ (str "=" ++ (sp3 ++ value))))) ++ sp4 := by
      simp [List.append_assoc]
    rw [e, parseCCRN_two sp1 sp2 sp3 sp4 key value
      hsp1 hsp2 hsp3 hsp4 hkne hkL hkR hkeq hknc hkccrn hvne hvL hvR hvnc,
      stripQuotes_plain value hnq]

/-- Witness for claim C8 at the spec's own example inputs. -/
theorem claim_C8_value_normalization_witness :
    parseCCRNFields (str "ccrn=t.g/v1, name=\"my-pod\"")
      = Res.ok [(str "ccrn", str "t.g/v1"), (str "name", str "my-pod")]
    ∧ parseCCRNFields (str "ccrn=t.g/v1, name=my-pod")
      = Res.ok [(str "ccrn", str "t.g/v1"), (str "name", str "my-pod")] := by
  have h := claim_C8_value_normalization [' '] [] [] [] (str "name") (str "my-pod")
    (by decide) (by decide) (by decide) (by decide) (by decide) (by decide)
    (by decide) (by decide) (by decide) (by decide) (by decide)
  constructor
  · have e : str "ccrn=t.g/v1," ++ [' '] ++ str "name" ++ [] ++ str "=" ++ []
        ++ str "\"" ++ str "my-pod" ++ str "\"" ++ []
        = str "ccrn=t.g/v1, name=\"my-pod\"" := by decide
    exact e ▸ h.1
  · have e : str "ccrn=t.g/v1," ++ [' '] ++ str "name" ++ [] ++ str "=" ++ []
        ++ str "my-pod" ++ []
        = str "ccrn=t.g/v1, name=my-pod" := by decide
    exact e ▸ h.2 (by decide) (by decide) (by decide) (by decide)

/-! Correspondence between renderURN's first-occurrence token replacement on
flat strings and hole substitution on structured templates (claims C9, C10). -/

theorem brFree_mem {s : Str} (h : brFree s = true) {c : Char} (hc : c ∈ s) :
    c ≠ '<' ∧ c ≠ '>' := by
  have h2 := List.all_eq_true.mp h c hc
  simp only [Bool.and_eq_true, bne_iff_ne, ne_eq] at h2
  exact h2

theorem brFree_tail {c : Char} {s : Str} (h : brFree (c :: s) = true) :
    brFree s = true := by
  simp only [brFree, List.all_cons, Bool.and_eq_true] at h ⊢
  exact h.2

theorem repl_here (old v t : Str) (h : old ≠ []) :
    goReplace1 old v (old ++ t) = v ++ t := by
  cases old with
  | nil => exact absurd rfl h
  | cons o0 o1 =>
    show goReplace1 (o0 :: o1) v (o0 :: (o1 ++ t)) = v ++ t
    rw [goReplace1, if_neg (by simp),
      if_pos (show isPre (o0 :: o1) (o0 :: (o1 ++ t)) = true
        from isPre_append_self (o0 :: o1) t)]
    congr 1
    exact List.drop_left (o0 :: o1) t

theorem repl_skip (pr v : Str) :
    ∀ s t : Str, (∀ c ∈ s, c ≠ '<') →
      goReplace1 ('<' :: pr) v (s ++ t) = s ++ goReplace1 ('<' :: pr) v t
  | [], _, _ => rfl
  | c :: s1, t, h => by
    have hc : c ≠ '<' := h c (by simp)
    have hcb : ('<' == c) = false := beq_eq_false_iff_ne.mpr (Ne.symm hc)
    have hpre : isPre ('<' :: pr) (c :: (s1 ++ t)) = false := by
      show (('<' == c) && isPre pr (s1 ++ t)) = false
      rw [hcb, Bool.false_and]
    show goReplace1 ('<' :: pr) v (c :: (s1 ++ t)) = c :: (s1 ++ goReplace1 ('<' :: pr) v t)
    rw [goReplace1, if_neg (by simp), if_neg (by simp [hpre]),
      repl_skip pr v s1 t (fun x hx => h x (by simp [hx]))]

theorem token_not_pre_aux :
    ∀ (k w r : Str), brFree k = true → brFree w = true → k ≠ w →
      isPre (k ++ ['>']) (w ++ '>' :: r) = false
  | [], [], _, _, _, hne => absurd rfl hne
  | [], w0 :: w1, r, _, hw, _ => by
    have hw0 : w0 ≠ '>' := (brFree_mem hw (by simp)).2
    have hb : ('>' == w0) = false := beq_eq_false_iff_ne.mpr (Ne.symm hw0)
    show (('>' == w0) && isPre [] (w1 ++ '>' :: r)) = false
    rw [hb, Bool.false_and]
  | k0 :: k1, [], r, hk, _, _ => by
    have hk0 : k0 ≠ '>' := (brFree_mem hk (by simp)).2
    have hb : (k0 == '>') = false := beq_eq_false_iff_ne.mpr hk0
    show ((k0 == '>') && isPre (k1 ++ ['>']) r) = false
    rw [hb, Bool.false_and]
  | k0 :: k1, w0 :: w1, r, hk, hw, hne => by
    by_cases h0 : k0 = w0
    · subst h0
      have hne1 : k1 ≠ w1 := fun hEq => hne (by rw [hEq])
      show ((k0 == k0) && isPre (k1 ++ ['>']) (w1 ++ '>' :: r)) = false
      rw [token_not_pre_aux k1 w1 r (brFree_tail hk) (brFree_tail hw) hne1,
        Bool.and_false]
    · have hb : (k0 == w0) = false := beq_eq_false_iff_ne.mpr h0
      show ((k0 == w0) && isPre (k1 ++ ['>']) (w1 ++ '>' :: r)) = false
      rw [hb, Bool.false_and]

theorem wfT_cons_lit {s : Str} {r : Tpl} (h : wfT (Seg.lit s :: r) = true) :
    brFree s = true ∧ wfT r = true := by
  simpa only [wfT, List.all_cons, Bool.and_eq_true] using h

theorem wfT_cons_hole {n : Str} {r : Tpl} (h : wfT (Seg.hole n :: r) = true) :
    brFree n = true ∧ wfT r = true := by
  simpa only [wfT, List.all_cons, Bool.and_eq_true] using h

theorem wfT_substFirst (k v : Str) (hv : brFree v = true) :
    ∀ tp : Tpl, wfT tp = true → wfT (substFirst k v tp) = true
  | [], _ => rfl
  | .lit s :: r, h => by
    obtain ⟨h1, h2⟩ := wfT_cons_lit h
    rw [show substFirst k v (Seg.lit s :: r) = Seg.lit s :: substFirst k v r
      from by rw [substFirst]]
    simp only [wfT, List.all_cons, Bool.and_eq_true]
    exact ⟨h1, wfT_substFirst k v hv r h2⟩
  | .hole n :: r, h => by
    obtain ⟨h1, h2⟩ := wfT_cons_hole h
    by_cases hn : n = k
    · rw [show substFirst k v (Seg.hole n :: r) = Seg.lit v :: r
        from by rw [substFirst, if_pos hn]]
      simp only [wfT, List.all_cons, Bool.and_eq_true]
      exact ⟨hv, h2⟩
    · rw [show substFirst k v (Seg.hole n :: r) = Seg.hole n :: substFirst k v r
        from by rw [substFirst, if_neg hn]]
      simp only [wfT, List.all_cons, Bool.and_eq_true]
      exact ⟨h1, wfT_substFirst k v hv r h2⟩

theorem repl_flat (k v : Str) (hk : brFree k = true) :
    ∀ tp : Tpl, wfT tp = true →
      goReplace1 ('<' :: (k ++ ['>'])) v (flat tp) = flat (substFirst k v tp)
  | [], _ => rfl
  | .lit s :: r, h => by
    obtain ⟨h1, h2⟩ := wfT_cons_lit h
    have hs : ∀ c ∈ s, c ≠ '<' := fun c hc => (brFree_mem h1 hc).1
    rw [show substFirst k v (Seg.lit s :: r) = Seg.lit s :: substFirst k v r
      from by rw [substFirst]]
    show goReplace1 ('<' :: (k ++ ['>'])) v (s ++ flat r) = s ++ flat (substFirst k v r)
    rw [repl_skip (k ++ ['>']) v s (flat r) hs, repl_flat k v hk r h2]
  | .hole w :: r, h => by
    obtain ⟨h1, h2⟩ := wfT_cons_hole h
    by_cases hw : w = k
    · subst hw
      rw [show substFirst w v (Seg.hole w :: r) = Seg.lit v :: r
        from by rw [substFirst, if_pos rfl]]
      have e : flat (Seg.hole w :: r) = ('<' :: (w ++ ['>'])) ++ flat r := by
        show '<' :: (w ++ '>' :: flat r) = ('<' :: (w ++ ['>'])) ++ flat r
        simp
      rw [e, repl_here ('<' :: (w ++ ['>'])) v (flat r) (by simp)]
      show v ++ flat r = flat (Seg.lit v :: r)
      rfl
    · have hkw : k ≠ w := fun he => hw he.symm
      have hpre : isPre ('<' :: (k ++ ['>'])) ('<' :: (w ++ '>' :: flat r)) = false := by
        show (('<' == '<') && isPre (k ++ ['>']) (w ++ '>' :: flat r)) = false
        rw [token_not_pre_aux k w (flat r) hk h1 hkw, Bool.and_false]
      have hwlt : ∀ c ∈ w, c ≠ '<' := fun c hc => (brFree_mem h1 hc).1
      rw [show substFirst k v (Seg.hole w :: r) = Seg.hole w :: substFirst k v r
        from by rw [substFirst, if_neg hw]]
      show goReplace1 ('<' :: (k ++ ['>'])) v ('<' :: (w ++ '>' :: flat r))
          = '<' :: (w ++ '>' :: flat (substFirst k v r))
      rw [goReplace1, if_neg (by simp), if_neg (by simp [hpre])]
      congr 1
      rw [repl_skip (k ++ ['>']) v w ('>' :: flat r) hwlt]
      congr 1
      have hgt : isPre ('<' :: (k ++ ['>'])) ('>' :: flat r) = false := by
        show (('<' == '>') && isPre (k ++ ['>']) (flat r)) = false
        rw [show ('<' == '>') = false from by decide, Bool.false_and]
      rw [goReplace1, if_neg (by simp), if_neg (by simp [hgt]),
        repl_flat k v hk r h2]

theorem renderFold_flat (l : Fields) :
    ∀ tp : Tpl, wfT tp = true →
      (∀ kv ∈ l, brFree kv.1 = true ∧ brFree kv.2 = true) →
      renderFold l (flat tp)
        = flat (l.foldl (fun t kv => substFirst kv.1 kv.2 t) tp) := by
  induction l with
  | nil => intro tp _ _; rfl
  | cons kv l1 ih =>
    intro tp hwf hbr
    have hkv := hbr kv (by simp)
    have e : str "<" ++ kv.1 ++ str ">" = '<' :: (kv.1 ++ ['>']) := by
      simp [str]
    show renderFold l1 (goReplace1 (str "<" ++ kv.1 ++ str ">") kv.2 (flat tp)) = _
    rw [e, repl_flat kv.1 kv.2 hkv.1 tp hwf]
    exact ih (substFirst kv.1 kv.2 tp) (wfT_substFirst kv.1 kv.2 hkv.2 tp hwf)
      (fun x hx => hbr x (by simp [hx]))

theorem substFirst_comm (k1 v1 k2 v2 : Str) (hne : k1 ≠ k2) :
    ∀ tp : Tpl, substFirst k2 v2 (substFirst k1 v1 tp)
      = substFirst k1 v1 (substFirst k2 v2 tp)
  | [] => rfl
  | .lit s :: r => by
    rw [show substFirst k1 v1 (Seg.lit s :: r) = Seg.lit s :: substFirst k1 v1 r
      from by rw [substFirst]]
    rw [show substFirst k2 v2 (Seg.lit s :: r) = Seg.lit s :: substFirst k2 v2 r
      from by rw [substFirst]]
    rw [show substFirst k2 v2 (Seg.lit s :: substFirst k1 v1 r)
        = Seg.lit s :: substFirst k2 v2 (substFirst k1 v1 r) from by rw [substFirst]]
    rw [show substFirst k1 v1 (Seg.lit s :: substFirst k2 v2 r)
        = Seg.lit s :: substFirst k1 v1 (substFirst k2 v2 r) from by rw [substFirst]]
    rw [substFirst_comm k1 v1 k2 v2 hne r]
  | .hole n :: r => by
    by_cases h1 : n = k1
    · subst h1
      have hn2 : n ≠ k2 := hne
      rw [show substFirst n v1 (Seg.hole n :: r) = Seg.lit v1 :: r
        from by rw [substFirst, if_pos rfl]]
      rw [show substFirst k2 v2 (Seg.hole n :: r) = Seg.hole n :: substFirst k2 v2 r
        from by rw [substFirst, if_neg hn2]]
      rw [show substFirst k2 v2 (Seg.lit v1 :: r) = Seg.lit v1 :: substFirst k2 v2 r
        from by rw [substFirst]]
      rw [show substFirst n v1 (Seg.hole n :: substFirst k2 v2 r)
          = Seg.lit v1 :: substFirst k2 v2 r from by rw [substFirst, if_pos rfl]]
    · by_cases h2 : n = k2
      · subst h2
        have hn1 : n ≠ k1 := fun he => h1 he
        rw [show substFirst k1 v1 (Seg.hole n :: r) = Seg.hole n :: substFirst k1 v1 r
          from by rw [substFirst, if_neg hn1]]
        rw [show substFirst n v2 (Seg.hole n :: substFirst k1 v1 r)
            = Seg.lit v2 :: substFirst k1 v1 r from by rw [substFirst, if_pos rfl]]
        rw [show substFirst n v2 (Seg.hole n :: r) = Seg.lit v2 :: r
          from by rw [substFirst, if_pos rfl]]
        rw [show substFirst k1 v1 (Seg.lit v2 :: r) = Seg.lit v2 :: substFirst k1 v1 r
          from by rw [substFirst]]
      · rw [show substFirst k1 v1 (Seg.hole n :: r) = Seg.hole n :: substFirst k1 v1 r
          from by rw [substFirst, if_neg h1]]
        rw [show substFirst k2 v2 (Seg.hole n :: r) = Seg.hole n :: substFirst k2 v2 r
          from by rw [substFirst, if_neg h2]]
        rw [show substFirst k2 v2 (Seg.hole n :: substFirst k1 v1 r)
            = Seg.hole n :: substFirst k2 v2 (substFirst k1 v1 r)
          from by rw [substFirst, if_neg h2]]
        rw [show substFirst k1 v1 (Seg.hole n :: substFirst k2 v2 r)
            = Seg.hole n :: substFirst k1 v1 (substFirst k2 v2 r)
          from by rw [substFirst, if_neg h1]]
        rw [substFirst_comm k1 v1 k2 v2 hne r]

theorem foldl_subst_perm (l l2 : Fields) (tp : Tpl)
    (hperm : l.Perm l2) (hpair : l.Pairwise (fun a b => a.1 ≠ b.1)) :
    l.foldl (fun t kv => substFirst kv.1 kv.2 t) tp
      = l2.foldl (fun t kv => substFirst kv.1 kv.2 t) tp := by
  refine hperm.foldl_eq' ?_ tp
  intro x hx y hy z
  by_cases hxy : x = y
  · subst hxy; rfl
  · have hsymm : Symmetric (fun a b : Str × Str => a.1 ≠ b.1) :=
      fun _ _ hab => Ne.symm hab
    have hk : x.1 ≠ y.1 := List.Pairwise.forall hsymm hpair hx hy hxy
    exact substFirst_comm x.1 x.2 y.1 y.2 hk z

theorem substPerSpec_nil : ∀ tp : Tpl, substPerSpec [] tp = tp
  | [] => rfl
  | .lit s :: r => by
    rw [show substPerSpec [] (Seg.lit s :: r) = Seg.lit s :: substPerSpec [] r
      from by rw [substPerSpec]]
    rw [substPerSpec_nil r]
  | .hole n :: r => by
    rw [show substPerSpec [] (Seg.hole n :: r) = Seg.hole n :: substPerSpec [] r
      from by rw [substPerSpec]; rfl]
    rw [substPerSpec_nil r]

theorem getF_cons_self (k v : Str) (rest : Fields) :
    getF ((k, v) :: rest) k = some v := by
  simp [getF]

theorem getF_cons_ne (k v n : Str) (rest : Fields) (h : k ≠ n) :
    getF ((k, v) :: rest) n = getF rest n := by
  have hb : (k == n) = false := beq_eq_false_iff_ne.mpr h
  simp [getF, hb]

theorem removeKey_not_mem (l : Fields) (k : Str) (h : k ∉ l.map Prod.fst) :
    removeKey l k = l := by
  unfold removeKey
  rw [List.filter_eq_self.mpr]
  intro a ha
  have : a.1 ≠ k := fun he => h (he ▸ List.mem_map_of_mem Prod.fst ha)
  simpa using this

theorem removeKey_cons_ne (k v n : Str) (rest : Fields) (h : k ≠ n) :
    removeKey ((k, v) :: rest) n = (k, v) :: removeKey rest n := by
  simp [removeKey, List.filter_cons, h]

theorem removeKey_cons_self (k v : Str) (rest : Fields) :
    removeKey ((k, v) :: rest) k = removeKey rest k := by
  simp [removeKey, List.filter_cons]

theorem substPerSpec_push (k v : Str) :
    ∀ (tp : Tpl) (rest : Fields), k ∉ rest.map Prod.fst →
      substPerSpec rest (substFirst k v tp) = substPerSpec ((k, v) :: rest) tp
  | [], _, _ => rfl
  | .lit s :: r, rest, h => by
    rw [show substFirst k v (Seg.lit s :: r) = Seg.lit s :: substFirst k v r
        from by rw [substFirst]]
    rw [show substPerSpec rest (Seg.lit s :: substFirst k v r)
        = Seg.lit s :: substPerSpec rest (substFirst k v r) from by rw [substPerSpec]]
    rw [show substPerSpec ((k, v) :: rest) (Seg.lit s :: r)
        = Seg.lit s :: substPerSpec ((k, v) :: rest) r from by rw [substPerSpec]]
    rw [substPerSpec_push k v r rest h]
  | .hole n :: r, rest, h => by
    by_cases hn : n = k
    · subst hn
      rw [show substFirst n v (Seg.hole n :: r) = Seg.lit v :: r
          from by rw [substFirst, if_pos rfl]]
      rw [show substPerSpec rest (Seg.lit v :: r) = Seg.lit v :: substPerSpec rest r
          from by rw [substPerSpec]]
      rw [show substPerSpec ((n, v) :: rest) (Seg.hole n :: r)
          = Seg.lit v :: substPerSpec (removeKey ((n, v) :: rest) n) r
        from by rw [substPerSpec, getF_cons_self]]
      rw [removeKey_cons_self n v rest, removeKey_not_mem rest n h]
    · have hkn : k ≠ n := fun he => hn he.symm
      rw [show substFirst k v (Seg.hole n :: r) = Seg.hole n :: substFirst k v r
          from by rw [substFirst, if_neg hn]]
      cases hg : getF rest n with
      | some w =>
        rw [show substPerSpec rest (Seg.hole n :: substFirst k v r)
            = Seg.lit w :: substPerSpec (removeKey rest n) (substFirst k v r)
          from by rw [substPerSpec, hg]]
        have hk2 : k ∉ (removeKey rest n).map Prod.fst := by
          intro hmem
          obtain ⟨a, ha, hae⟩ := List.mem_map.mp hmem
          exact h (hae ▸ List.mem_map_of_mem Prod.fst (List.mem_of_mem_filter ha))
        rw [substPerSpec_push k v r (removeKey rest n) hk2]
        rw [show substPerSpec ((k, v) :: rest) (Seg.hole n :: r)
            = Seg.lit w :: substPerSpec (removeKey ((k, v) :: rest) n) r
          from by rw [substPerSpec, getF_cons_ne k v n rest hkn, hg]]
        rw [removeKey_cons_ne k v n rest hkn]
      | none =>
        rw [show substPerSpec rest (Seg.hole n :: substFirst k v r)
            = Seg.hole n :: substPerSpec rest (substFirst k v r)
          from by rw [substPerSpec, hg]]
        rw [substPerSpec_push k v r rest h]
        rw [show substPerSpec ((k, v) :: rest) (Seg.hole n :: r)
            = Seg.hole n :: substPerSpec ((k, v) :: rest) r
          from by rw [substPerSpec, getF_cons_ne k v n rest hkn, hg]]

theorem foldl_substPerSpec :
    ∀ (l : Fields) (tp : Tpl), l.Pairwise (fun a b => a.1 ≠ b.1) →
      l.foldl (fun t kv => substFirst kv.1 kv.2 t) tp = substPerSpec l tp
  | [], tp, _ => (substPerSpec_nil tp).symm
  | (k, v) :: l1, tp, hp => by
    have hpc := List.pairwise_cons.mp hp
    have hk : k ∉ l1.map Prod.fst := by
      intro hmem
      obtain ⟨a, ha, hae⟩ := List.mem_map.mp hmem
      exact hpc.1 a ha hae.symm
    show List.foldl (fun t kv => substFirst kv.1 kv.2 t) (substFirst k v tp) l1 = _
    rw [foldl_substPerSpec l1 (substFirst k v tp) hpc.2,
      substPerSpec_push k v tp l1 hk]

/-- Claim C10 counterexample: renderURN iterates the field map with one
first-occurrence replacement per field, so for equal mappings presented in
two iteration orders the outputs differ when one field's value contains the
placeholder token of another field. -/
theorem claim_C10_counterexample :
    List.Perm [(str "a", str "<b>"), (str "b", str "X")]
      [(str "b", str "X"), (str "a", str "<b>")]
    ∧ renderFold [(str "a", str "<b>"), (str "b", str "X")] (str "urn:ccrn:<a>/<b>")
      ≠ renderFold [(str "b", str "X"), (str "a", str "<b>")] (str "urn:ccrn:<a>/<b>") :=
  ⟨List.Perm.swap _ _ _, by decide⟩

/-- Claim C10 (amended): renderURN is independent of the map iteration order
when the template is a well-formed alternation of bracket-free literals and
placeholders, the keys are distinct, and no key or value contains an angle
bracket; in general the output depends on the iteration order, as the
counterexample shows. -/
theorem claim_C10_render_deterministic (l l2 : Fields) (tp : Tpl)
    (hperm : l.Perm l2) (hpair : l.Pairwise (fun a b => a.1 ≠ b.1))
    (hbr : ∀ kv ∈ l, brFree kv.1 = true ∧ brFree kv.2 = true)
    (hwf : wfT tp = true) :
    renderFold l (flat tp) = renderFold l2 (flat tp) := by
  rw [renderFold_flat l tp hwf hbr,
    renderFold_flat l2 tp hwf (fun kv hkv => hbr kv (hperm.mem_iff.mpr hkv)),
    foldl_subst_perm l l2 tp hperm hpair]

/-- Witness for claim C10 on a two-field mapping in both iteration orders. -/
theorem claim_C10_render_deterministic_witness :
    renderFold [(str "cluster", str "c1"), (str "name", str "n1")]
      (flat [Seg.lit (str "urn:ccrn:t.g/v1/"), Seg.hole (str "cluster"),
        Seg.lit (str "/"), Seg.hole (str "name")])
    = renderFold [(str "name", str "n1"), (str "cluster", str "c1")]
      (flat [Seg.lit (str "urn:ccrn:t.g/v1/"), Seg.hole (str "cluster"),
        Seg.lit (str "/"), Seg.hole (str "name")]) :=
  claim_C10_render_deterministic _ _ _ (List.Perm.swap _ _ _)
    (by simp [List.pairwise_cons]; decide) (by decide) (by decide)

/-- Claim C9 counterexample: with fields a ↦ "<b>", b ↦ "X" and the
template urn:ccrn:<a>/<b>, renderURN's replace fold rewrites the copy of
the token <b> injected by a's value and leaves the template's own <b>
placeholder in the output although b is a key of the mapping, so the
inserted value is not kept literally and the output differs from the
claimed per-placeholder substitution (the middle conjunct checks that the
flat form of the structured template is that very template string). -/
theorem claim_C9_counterexample :
    renderFold [(str "a", str "<b>"), (str "b", str "X")] (str "urn:ccrn:<a>/<b>")
      = str "urn:ccrn:X/<b>"
    ∧ str "urn:ccrn:<a>/<b>"
      = flat [Seg.lit (str "urn:ccrn:"), Seg.hole (str "a"),
          Seg.lit (str "/"), Seg.hole (str "b")]
    ∧ renderFold [(str "a", str "<b>"), (str "b", str "X")] (str "urn:ccrn:<a>/<b>")
      ≠ flat (substPerSpec [(str "a", str "<b>"), (str "b", str "X")]
          [Seg.lit (str "urn:ccrn:"), Seg.hole (str "a"),
            Seg.lit (str "/"), Seg.hole (str "b")]) :=
  ⟨by decide, by decide, by decide⟩

/-- Claim C9 (amended): the unrestricted claim fails when one field's value
contains another field's placeholder token, as the counterexample shows;
restricted to well-formed templates and bracket-free distinct-keyed fields,
renderURN substitutes each placeholder whose name is a key with that
field's value inserted literally (no escaping), replacing only the first
occurrence per field, and leaves placeholders without a corresponding field
unsubstituted — that is, it agrees with the spec-side substPerSpec; in
addition the URN method delegates to exactly this fold whenever a non-empty
template is supplied. -/
theorem claim_C9_render_substitution (l : Fields) (tp : Tpl)
    (hpair : l.Pairwise (fun a b => a.1 ≠ b.1))
    (hbr : ∀ kv ∈ l, brFree kv.1 = true ∧ brFree kv.2 = true)
    (hwf : wfT tp = true) :
    renderFold l (flat tp) = flat (substPerSpec l tp)
    ∧ ∀ (p : ParsedResource) (t : Str), t.isEmpty = false →
        p.URN t = renderFold p.fields t := by
  constructor
  · rw [renderFold_flat l tp hwf hbr, foldl_substPerSpec l tp hpair]
  · intro p t ht
    simp [ParsedResource.URN, ht]

/-- Witness for claim C9 on a mapping with one placeholder left unmatched. -/
theorem claim_C9_render_substitution_witness :
    renderFold [(str "cluster", str "c1"), (str "name", str "n1")]
      (flat [Seg.lit (str "urn:ccrn:t.g/v1/"), Seg.hole (str "cluster"),
        Seg.lit (str "/"), Seg.hole (str "name"), Seg.lit (str "/"),
        Seg.hole (str "path")])
    = flat (substPerSpec [(str "cluster", str "c1"), (str "name", str "n1")]
        [Seg.lit (str "urn:ccrn:t.g/v1/"), Seg.hole (str "cluster"),
          Seg.lit (str "/"), Seg.hole (str "name"), Seg.lit (str "/"),
          Seg.hole (str "path")]) :=
  (claim_C9_render_substitution _ _
    (by simp [List.pairwise_cons]; decide) (by decide) (by decide)).1

/-! Map-consistency of the backend under the critical sections of Refresh
(claim C7). -/

theorem mem_insKey (l : List Str) (k q : Str) :
    q ∈ insKey l k ↔ q ∈ l ∨ q = k := by
  unfold insKey
  by_cases h : l.contains k
  · rw [if_pos h]
    have hk : k ∈ l := by simpa [List.contains] using h
    constructor
    · exact Or.inl
    · rintro (hq | rfl)
      · exact hq
      · exact hk
  · rw [if_neg h]
    simp [List.mem_append]

theorem mem_keys_alSet {β : Type} (m : List (Str × β)) (k q : Str) (v : β) :
    q ∈ (alSet m k v).map Prod.fst ↔ q ∈ m.map Prod.fst ∨ q = k := by
  unfold alSet
  by_cases h : m.any (fun p => p.1 == k)
  · rw [if_pos h]
    have hkeys : (m.map (fun p => if p.1 == k then (k, v) else p)).map Prod.fst
        = m.map Prod.fst := by
      rw [List.map_map]
      apply List.map_congr_left
      intro p _
      by_cases hpk : (p.1 == k) = true
      · simp only [Function.comp, hpk, if_pos]
        exact (eq_of_beq hpk).symm
      · simp [Function.comp, hpk]
    rw [hkeys]
    have hk : k ∈ m.map Prod.fst := by
      obtain ⟨p, hp, hpk⟩ := List.any_eq_true.mp h
      exact (eq_of_beq hpk) ▸ List.mem_map_of_mem Prod.fst hp
    constructor
    · exact Or.inl
    · rintro (hq | rfl)
      · exact hq
      · exact hk
  · rw [if_neg h]
    simp only [List.map_append, List.mem_append, List.map_cons, List.map_nil,
      List.mem_singleton]

theorem mapsConsistent_storeVersionSafe (crd : GoCRD) (v : CRDVersion)
    (fb : FilesystemBackend)
    (hv : v.served = true → v.hasSchema = true ∧ v.builderOk = true)
    (hc : mapsConsistent fb) : mapsConsistent (storeVersionSafe crd fb v) := by
  unfold storeVersionSafe storeServed
  by_cases hs : v.served = true
  · rw [if_neg (by simp [hs])]
    obtain ⟨h1, h2⟩ := hv hs
    dsimp only
    rw [if_pos (by simp [h1, h2])]
    intro q
    simp only [mem_keys_alSet, mem_insKey]
    exact or_congr (hc q) Iff.rfl
  · rw [if_pos (by simpa using hs)]
    exact hc

theorem mapsConsistent_storeCRDSafe (fb : FilesystemBackend) (crd : GoCRD)
    (hok : ∀ v ∈ crd.versions, v.served = true → v.hasSchema = true ∧ v.builderOk = true)
    (hc : mapsConsistent fb) : mapsConsistent (storeCRDSafe fb crd) := by
  unfold storeCRDSafe
  suffices h : ∀ (vs : List CRDVersion) (fb2 : FilesystemBackend),
      (∀ v ∈ vs, v.served = true → v.hasSchema = true ∧ v.builderOk = true) →
      mapsConsistent fb2 → mapsConsistent (vs.foldl (storeVersionSafe crd) fb2) from
    h crd.versions fb hok hc
  intro vs
  induction vs with
  | nil => intro fb2 _ hc2; exact hc2
  | cons v vs ih =>
    intro fb2 hv hc2
    exact ih _ (fun w hw => hv w (by simp [hw]))
      (mapsConsistent_storeVersionSafe crd v fb2 (hv v (by simp)) hc2)

theorem storeVersions_safe (crd : GoCRD) :
    ∀ (vs : List CRDVersion) (fb : FilesystemBackend),
      (∀ v ∈ vs, v.served = true → v.schemaNil = false) →
      vs.foldl (storeVersion crd) (some fb)
        = some (vs.foldl (storeVersionSafe crd) fb)
  | [], _, _ => rfl
  | v :: vs, fb, h => by
    have hv := h v (by simp)
    rw [List.foldl_cons, List.foldl_cons]
    by_cases hs : v.served = true
    · rw [show storeVersion crd (some fb) v = some (storeServed crd fb v) from by
        show (if ¬ v.served then some fb else if v.schemaNil then none
          else some (storeServed crd fb v)) = some (storeServed crd fb v)
        rw [if_neg (by simp [hs]), if_neg (by simp [hv hs])]]
      rw [show storeVersionSafe crd fb v = storeServed crd fb v from by
        rw [storeVersionSafe, if_neg (by simp [hs])]]
      exact storeVersions_safe crd vs _ (fun w hw => h w (by simp [hw]))
    · rw [show storeVersion crd (some fb) v = some fb from by
        show (if ¬ v.served then some fb else if v.schemaNil then none
          else some (storeServed crd fb v)) = some fb
        rw [if_pos (by simpa using hs)]]
      rw [show storeVersionSafe crd fb v = fb from by
        rw [storeVersionSafe, if_pos (by simpa using hs)]]
      exact storeVersions_safe crd vs fb (fun w hw => h w (by simp [hw]))

theorem crdSafe_spec (crd : GoCRD) (h : crdSafe crd = true) :
    ∀ v ∈ crd.versions, v.served = true → v.schemaNil = false := by
  intro v hv hs
  have h2 := List.all_eq_true.mp h v hv
  simp only [hs, Bool.not_true, Bool.false_or] at h2
  simpa using h2

theorem storeCRD_safe (fb : FilesystemBackend) (crd : GoCRD)
    (h : crdSafe crd = true) :
    storeCRD fb crd = some (storeCRDSafe fb crd) :=
  storeVersions_safe crd crd.versions fb (crdSafe_spec crd h)

theorem storeOk_of_storeOkB (crd : GoCRD)
    (h : storeOkB (RStep.store crd) = true) :
    ∀ v ∈ crd.versions, v.served = true → v.hasSchema = true ∧ v.builderOk = true := by
  intro v hv hs
  have h2 := List.all_eq_true.mp h v hv
  simp only [hs, Bool.not_true, Bool.false_or, Bool.and_eq_true] at h2
  exact h2

theorem mapsConsistent_applyStep (fb : FilesystemBackend) (st : RStep)
    (hok : storeOkB st = true) (hc : mapsConsistent fb) :
    mapsConsistent (applyStep fb st) := by
  cases st with
  | clearAll => intro q; simp [applyStep]
  | store crd => exact mapsConsistent_storeCRDSafe fb crd (storeOk_of_storeOkB crd hok) hc
  | fileStore p cs => exact hc

theorem mapsConsistent_steps :
    ∀ (steps : List RStep) (fb : FilesystemBackend),
      (∀ st ∈ steps, storeOkB st = true) → mapsConsistent fb →
      ∀ s ∈ statesOf fb steps, mapsConsistent s
  | [], fb, _, hc, s, hs => by
    rw [show statesOf fb [] = [fb] from rfl] at hs
    rw [List.mem_singleton.mp hs]
    exact hc
  | st :: rest, fb, hok, hc, s, hs => by
    rw [show statesOf fb (st :: rest) = fb :: statesOf (applyStep fb st) rest
      from rfl] at hs
    rcases List.mem_cons.mp hs with h | h
    · rw [h]; exact hc
    · exact mapsConsistent_steps rest (applyStep fb st)
        (fun x hx => hok x (by simp [hx]))
        (mapsConsistent_applyStep fb st (hok st (by simp)) hc) s h

/-- Claim C7 counterexample: Refresh clears the index in one critical
section and repopulates it through later, separate storeCRD critical
sections, so a concurrent reader can observe an intermediate index (here:
the cleared, empty one) that is neither the pre-refresh nor the post-refresh
state — the clearing and the repopulation do not happen in one critical
section. -/
theorem claim_C7_counterexample :
    ((statesOf exC7fb (refreshSteps (str "g") exC7paths)).getD 1 exC7fb).crds = []
    ∧ exC7fb.crds ≠ []
    ∧ (((statesOf exC7fb (refreshSteps (str "g") exC7paths)).getLast?.getD exC7fb).crds
        = exC7fb.crds) := by
  refine ⟨by decide, by decide, by decide⟩

/-- Claim C7 (amended): the clearing write and each storeCRD run in separate
crdsMutex critical sections, so readers can observe a partially repopulated
index; but every critical section inserts a type key into the descriptor map
and the validator key set together (provided every served version of a
stored CRD builds its validator), so no observable state has a type key in
one of the two maps and not in the other. -/
theorem claim_C7_refresh_consistency (g : Str) (fb : FilesystemBackend)
    (paths : List (Str × List FsFile))
    (hc : mapsConsistent fb)
    (hok : (refreshSteps g paths).all storeOkB = true) :
    ∀ s ∈ statesOf fb (refreshSteps g paths), mapsConsistent s :=
  mapsConsistent_steps (refreshSteps g paths) fb
    (fun st hst => List.all_eq_true.mp hok st hst) hc

/-- Witness for claim C7: the mid-refresh state after the store step on the
example source is consistent. -/
theorem claim_C7_refresh_consistency_witness :
    mapsConsistent ((statesOf exC7fb (refreshSteps (str "g") exC7paths)).getD 2 exC7fb) :=
  claim_C7_refresh_consistency (str "g") exC7fb exC7paths
    (by intro k; simp [exC7fb])
    (by decide)
    ((statesOf exC7fb (refreshSteps (str "g") exC7paths)).getD 2 exC7fb)
    (by decide)

/-! Counting lemmas for the batch-load semantics (claim C6). -/

theorem processDocs_counts (g fp : Str) :
    ∀ (ds : List Doc) (fb : FilesystemBackend) (r : CRDLoadingResult)
      (loaded : List GoCRD), ds.all (docSafe g) = true →
      ∃ (fbO : FilesystemBackend) (rO : CRDLoadingResult)
        (loadedO : List GoCRD),
        processDocs g fp ds fb r loaded = some (fbO, rO, loadedO)
        ∧ rO.processedCRDs = r.processedCRDs + ds.countP (fun d => docAccepted g d)
        ∧ rO.errors.length = r.errors.length + ds.countP (fun d => docRejected d)
  | [], fb, r, loaded, _ =>
    ⟨fb, r, loaded, by rw [processDocs], by simp, by simp⟩
  | .emptyDoc :: rest, fb, r, loaded, hall => by
    have htl : rest.all (docSafe g) = true := by
      simp only [List.all_cons, Bool.and_eq_true] at hall
      exact hall.2
    obtain ⟨fbO, rO, loadedO, ho, h1, h2⟩ :=
      processDocs_counts g fp rest fb r loaded htl
    refine ⟨fbO, rO, loadedO, ?_, ?_, ?_⟩
    · rw [show processDocs g fp (Doc.emptyDoc :: rest) fb r loaded
        = processDocs g fp rest fb r loaded from by rw [processDocs]]
      exact ho
    · rw [h1, List.countP_cons]
      simp [docAccepted]
    · rw [h2, List.countP_cons]
      simp [docRejected]
  | .badYaml :: rest, fb, r, loaded, hall => by
    have htl : rest.all (docSafe g) = true := by
      simp only [List.all_cons, Bool.and_eq_true] at hall
      exact hall.2
    obtain ⟨fbO, rO, loadedO, ho, h1, h2⟩ := processDocs_counts g fp rest fb
      { r with errorCount := r.errorCount + 1,
               errors := r.errors ++ [str "file " ++ fp ++ str ": failed to parse YAML"] }
      loaded htl
    refine ⟨fbO, rO, loadedO, ?_, ?_, ?_⟩
    · rw [show processDocs g fp (Doc.badYaml :: rest) fb r loaded
        = processDocs g fp rest fb
            { r with errorCount := r.errorCount + 1,
                     errors := r.errors ++ [str "file " ++ fp ++ str ": failed to parse YAML"] }
            loaded from by rw [processDocs]]
      exact ho
    · rw [h1, List.countP_cons]
      simp [docAccepted]
    · rw [h2, List.countP_cons]
      simp only [List.length_append, List.length_singleton, docRejected]
      simp
      omega
  | .parsed crd :: rest, fb, r, loaded, hall => by
    have htl : rest.all (docSafe g) = true := by
      simp only [List.all_cons, Bool.and_eq_true] at hall
      exact hall.2
    cases hval : validateCRDStructure crd with
    | some m =>
      obtain ⟨fbO, rO, loadedO, ho, h1, h2⟩ := processDocs_counts g fp rest fb
        { r with errorCount := r.errorCount + 1,
                 errors := r.errors ++ [str "file " ++ fp ++ str ": invalid CRD structure: " ++ m] }
        loaded htl
      refine ⟨fbO, rO, loadedO, ?_, ?_, ?_⟩
      · rw [show processDocs g fp (Doc.parsed crd :: rest) fb r loaded
          = processDocs g fp rest fb
              { r with errorCount := r.errorCount + 1,
                       errors := r.errors ++ [str "file " ++ fp ++ str ": invalid CRD structure: " ++ m] }
              loaded from by rw [processDocs, hval]]
        exact ho
      · rw [h1, List.countP_cons]
        simp [docAccepted, hval]
      · rw [h2, List.countP_cons]
        simp only [docRejected, hval, Option.isSome_some, if_pos, List.length_append]
        simp
        omega
    | none =>
      by_cases hrel : isCCRNRelevant g crd = true
      · have hcs : crdSafe crd = true := by
          simp only [List.all_cons, Bool.and_eq_true] at hall
          have hd := hall.1
          simp only [docSafe, hval, Option.isNone_none, hrel, Bool.and_self,
            Bool.not_true, Bool.false_or] at hd
          exact hd
        have hst := storeCRD_safe fb crd hcs
        obtain ⟨fbO, rO, loadedO, ho, h1, h2⟩ :=
          processDocs_counts g fp rest (storeCRDSafe fb crd)
            { r with processedCRDs := r.processedCRDs + 1,
                     loadedCRDKeys := r.loadedCRDKeys ++ servedKeys crd }
            (loaded ++ [crd]) htl
        refine ⟨fbO, rO, loadedO, ?_, ?_, ?_⟩
        · rw [show processDocs g fp (Doc.parsed crd :: rest) fb r loaded
            = processDocs g fp rest (storeCRDSafe fb crd)
                { r with processedCRDs := r.processedCRDs + 1,
                         loadedCRDKeys := r.loadedCRDKeys ++ servedKeys crd }
                (loaded ++ [crd])
            from by rw [processDocs, hval, if_neg (by simp [hrel]), hst]]
          exact ho
        · rw [h1, List.countP_cons]
          simp only [docAccepted, hval, Option.isNone_some, hrel]
          simp
          omega
        · rw [h2, List.countP_cons]
          simp [docRejected, hval]
      · obtain ⟨fbO, rO, loadedO, ho, h1, h2⟩ := processDocs_counts g fp rest fb
          { r with skippedCRDs := r.skippedCRDs + 1 } loaded htl
        refine ⟨fbO, rO, loadedO, ?_, ?_, ?_⟩
        · rw [show processDocs g fp (Doc.parsed crd :: rest) fb r loaded
            = processDocs g fp rest fb
                { r with skippedCRDs := r.skippedCRDs + 1 } loaded
            from by rw [processDocs, hval, if_pos (by simpa using hrel)]]
          exact ho
        · rw [h1, List.countP_cons]
          simp [docAccepted, hval, hrel]
        · rw [h2, List.countP_cons]
          simp [docRejected, hval]

theorem processFile_counts (g : Str) (fb : FilesystemBackend) (f : FsFile)
    (r : CRDLoadingResult) (hy : f.isYaml = true) (hsafe : fileSafe g f = true) :
    ∃ (fbO : FilesystemBackend) (rO : CRDLoadingResult),
      processFile g fb f r = some (fbO, rO)
      ∧ rO.processedCRDs = r.processedCRDs + fileAccCount g f
      ∧ rO.errors.length = r.errors.length + fileErrCount f := by
  unfold processFile fileAccCount fileErrCount
  rw [if_neg (by simp [hy]), if_neg (by simp [hy])]
  cases hc : f.content with
  | readErr =>
    dsimp only
    exact ⟨_, _, rfl, by simp, by simp⟩
  | splitErr =>
    dsimp only
    exact ⟨_, _, rfl, by simp, by simp⟩
  | docs ds =>
    have hds : ds.all (docSafe g) = true := by
      unfold fileSafe at hsafe
      rw [hy, hc] at hsafe
      simpa using hsafe
    dsimp only
    obtain ⟨fbO, rO, loadedO, ho, h1, h2⟩ := processDocs_counts g f.path ds fb
      { r with processedFiles := r.processedFiles + 1 } [] hds
    rw [ho]
    dsimp only
    split
    · exact ⟨_, _, rfl, h1, h2⟩
    · exact ⟨_, _, rfl, h1, h2⟩

theorem loadFiles_counts (g : Str) :
    ∀ (files : List FsFile) (fb : FilesystemBackend) (r : CRDLoadingResult),
      files.all (fileSafe g) = true →
      ∃ (fbO : FilesystemBackend) (rO : CRDLoadingResult),
        loadFiles g files fb r = some (fbO, rO)
        ∧ rO.processedCRDs = r.processedCRDs + specAccepted g files
        ∧ rO.errors.length = r.errors.length + specErrors files
  | [], fb, r, _ =>
    ⟨fb, r, by rw [loadFiles], by simp [specAccepted], by simp [specErrors]⟩
  | f :: rest, fb, r, hall => by
    simp only [List.all_cons, Bool.and_eq_true] at hall
    by_cases hy : f.isYaml = true
    · obtain ⟨fb2, r2, hpf, hp1, hp2⟩ := processFile_counts g fb f r hy hall.1
      obtain ⟨fbO, rO, ho, h1, h2⟩ := loadFiles_counts g rest fb2 r2 hall.2
      refine ⟨fbO, rO, ?_, ?_, ?_⟩
      · rw [show loadFiles g (f :: rest) fb r = loadFiles g rest fb2 r2 from by
          rw [loadFiles, if_pos hy, hpf]]
        exact ho
      · rw [h1, hp1]
        simp only [specAccepted, List.map_cons, List.sum_cons, fileAccCount, hy]
        rw [if_neg (by simp)]
        omega
      · rw [h2, hp2]
        simp only [specErrors, List.map_cons, List.sum_cons, fileErrCount, hy]
        rw [if_neg (by simp)]
        omega
    · obtain ⟨fbO, rO, ho, h1, h2⟩ := loadFiles_counts g rest fb r hall.2
      refine ⟨fbO, rO, ?_, ?_, ?_⟩
      · rw [show loadFiles g (f :: rest) fb r = loadFiles g rest fb r from by
          rw [loadFiles, if_neg hy]]
        exact ho
      · rw [h1]
        simp only [specAccepted, List.map_cons, List.sum_cons, fileAccCount]
        rw [if_pos (by simpa using hy)]
        omega
      · rw [h2]
        simp only [specErrors, List.map_cons, List.sum_cons, fileErrCount]
        rw [if_pos (by simpa using hy)]
        omega

/-- Claim C6: the claim says LoadCRDs fails only when zero types loaded from
the whole source with at least one structural error, and that whenever at
least one type loads the call succeeds with rejected documents recorded as
errors.  On batches that keep clear of the nil-Schema store crash this
holds — error exactly when zero documents accepted while an error was
recorded, the loaded count equal to the number of accepted documents, one
recorded error per rejected document or unreadable file — but a structurally
valid relevant CRD whose schema sits on a non-served version while a served
version has a nil Schema pointer makes storeCRD dereference nil, crashing
the whole call (none) even though another document of the batch had already
loaded, so the claim's success guarantee is false of the code. -/
theorem claim_C6_load_semantics (g : Str) (fb : FilesystemBackend)
    (pattern : Str) (files : List FsFile) (hne : files ≠ [])
    (hsafe : batchSafe g files = true) :
    (∃ (fbO : FilesystemBackend) (rO : CRDLoadingResult) (e : Option Str),
      LoadCRDs g fb pattern files = some (fbO, rO, e)
      ∧ (e ≠ none ↔ (rO.processedCRDs = 0 ∧ rO.errors ≠ []))
      ∧ rO.processedCRDs = specAccepted g files
      ∧ rO.errors.length = specErrors files
      ∧ (0 < rO.processedCRDs → e = none))
    ∧ LoadCRDs (str "g") ⟨[], [], [], str "g", []⟩ (str "p") exC6files = none
    ∧ 0 < specAccepted (str "g") exC6files := by
  refine ⟨?_, by decide, by decide⟩
  have hie : files.isEmpty = false := by
    cases files with
    | nil => exact absurd rfl hne
    | cons a l => rfl
  obtain ⟨fbL, rL, hload, hacc, herr⟩ :=
    loadFiles_counts g files fb emptyResult hsafe
  unfold LoadCRDs
  rw [if_neg (by simp [hie]), hload]
  dsimp only
  by_cases hcond : rL.processedCRDs = 0 ∧ rL.errors ≠ []
  · rw [if_pos hcond]
    refine ⟨_, _, _, rfl, by simp [hcond], ?_, ?_, ?_⟩
    · simpa [emptyResult] using hacc
    · simpa [emptyResult] using herr
    · intro hpos
      exact absurd hcond.1 (Nat.pos_iff_ne_zero.mp hpos)
  · rw [if_neg hcond]
    refine ⟨_, _, _, rfl, by simp [hcond], ?_, ?_, ?_⟩
    · simpa [emptyResult] using hacc
    · simpa [emptyResult] using herr
    · intro _
      rfl

/-- Witness for claim C6: a crash-free batch holding one well-formed
relevant CRD and one undecodable document loads with partial success: one
type counted and no error returned. -/
theorem claim_C6_load_semantics_witness :
    ∃ (fbO : FilesystemBackend) (rO : CRDLoadingResult) (e : Option Str),
      LoadCRDs (str "g") ⟨[], [], [], str "g", []⟩ (str "p")
          [⟨str "a.yaml", true, FileContent.docs [Doc.parsed exC7crd, Doc.badYaml]⟩]
        = some (fbO, rO, e)
      ∧ rO.processedCRDs
          = specAccepted (str "g")
              [⟨str "a.yaml", true, FileContent.docs [Doc.parsed exC7crd, Doc.badYaml]⟩]
      ∧ e = none := by
  obtain ⟨⟨fbO, rO, e, ho, _hiff, hacc, _herr, hsucc⟩, _, _⟩ :=
    claim_C6_load_semantics (str "g") ⟨[], [], [], str "g", []⟩ (str "p")
      [⟨str "a.yaml", true, FileContent.docs [Doc.parsed exC7crd, Doc.badYaml]⟩]
      (by decide) (by decide)
  exact ⟨fbO, rO, e, ho, hacc, hsucc (by rw [hacc]; decide)⟩
